import Mathlib

/-!
# ll: a singly-linked list with per-node reader-writer locks (src/ll.c)

A shallow embedding of `src/ll.c` for single-threaded runs.

* Nodes live in a heap of cells; a pointer is `Option Nat` (`none` is NULL, `some a` the
  address `a`).  A cell is `none` once it has been freed.  Reading or writing through NULL,
  through a freed cell or through an address that was never allocated is `Crash.fault`.
* `int` quantities (`len`, indices, return codes) are `Int`.  Signed overflow is undefined in
  C; it needs a list of `2^31 - 1` nodes, or the index `INT_MAX` in `ll_get_n`, and is outside
  the model.
* `ll.h` is not part of the sources: `LOCK` and `UNLOCK` are modelled as updates of a hold
  count per lock, and every lock operation is also appended to a trace.  A `LOCK` never
  blocks and an `UNLOCK` of a lock that is not held is not a fault: lock order and balance
  are read off the hold counts and the trace.  A `LOCK` or `UNLOCK` through a pointer that
  does not refer to a live node is a fault like any other access.
* `val_teardown` is a caller-supplied callback: a call is recorded in `torn`.  The callback
  `f` of `ll_map` is caller-supplied too: `ll_map` returns the values it is called on.
* A local pointer that is declared without an initial value (`nth_node`, `node`) holds an
  indeterminate value in C.  That value is an explicit argument of the functions below.
-/

namespace LL

/-- Modelled from the spec: the `enum locktype` of the missing `ll.h`, the mode argument of
`LOCK` (read or write), with the two values `l_read` and `l_write` that `ll.c` uses. -/
inductive locktype where
  | l_read
  | l_write
  deriving DecidableEq, Repr

/-- Ways in which a call does not return. -/
inductive Crash where
  | fault
  | hang
  deriving DecidableEq, Repr

/-- A node pointer: `none` is NULL. -/
abbrev Ptr := Option Nat

/-- The `struct ll_node`: value, successor and the hold count of the lock `m`. -/
structure ll_node (α : Type) where
  val : α
  nxt : Ptr
  m : Nat
  deriving DecidableEq, Repr

/-- Modelled from the spec: the list handle `ll_t` of the missing `ll.h`, with the fields that
`ll.c` uses: head `hd`, length `len` and the list lock `m` (its hold count).  The callback
fields `val_teardown` and `val_printer` are not state: a `val_teardown` call is logged in
`State.torn`. -/
structure ll_t where
  hd : Ptr
  len : Int
  m : Nat
  deriving DecidableEq, Repr

/-- A lock named in a `LOCK` or `UNLOCK`: the list lock or the lock of a node. -/
inductive LockRef where
  | list
  | node (p : Ptr)
  deriving DecidableEq, Repr

/-- One lock operation. -/
inductive LockEv where
  | acquire (lt : locktype) (r : LockRef)
  | release (r : LockRef)
  deriving DecidableEq, Repr

/-- Program state: node heap, the list handle, the `val_teardown` calls so far and the lock
trace. -/
structure State (α : Type) where
  cells : List (Option (ll_node α))
  list : ll_t
  torn : List α
  trace : List LockEv
  deriving DecidableEq, Repr

variable {α : Type}

/-- The function `ll_new`: an empty list. -/
def ll_new : State α :=
  { cells := [], list := { hd := none, len := 0, m := 0 }, torn := [], trace := [] }

/-- Read the node a pointer refers to. -/
def deref (s : State α) (p : Ptr) : Except Crash (ll_node α) :=
  match p with
  | none => .error .fault
  | some a =>
    match s.cells[a]? with
    | some (some nd) => .ok nd
    | _ => .error .fault

/-- Overwrite the node a pointer refers to. -/
def poke (s : State α) (p : Ptr) (f : ll_node α → ll_node α) : Except Crash (State α) :=
  match p with
  | none => .error .fault
  | some a =>
    match s.cells[a]? with
    | some (some nd) => .ok { s with cells := s.cells.set a (some (f nd)) }
    | _ => .error .fault

/-- The read `p->nxt`. -/
def get_nxt (s : State α) (p : Ptr) : Except Crash Ptr :=
  match deref s p with
  | .ok nd => .ok nd.nxt
  | .error e => .error e

/-- The read `p->val`. -/
def get_val (s : State α) (p : Ptr) : Except Crash α :=
  match deref s p with
  | .ok nd => .ok nd.val
  | .error e => .error e

/-- The write `p->nxt = q`. -/
def set_nxt (s : State α) (p q : Ptr) : Except Crash (State α) :=
  poke s p (fun nd => { nd with nxt := q })

/-- Modelled from the spec: the `LOCK` macro of the missing `ll.h` (acquire a reader-writer
lock in the given mode).  The hold count goes up by one. -/
def LOCK (lt : locktype) (r : LockRef) (s : State α) : Except Crash (State α) :=
  match r with
  | .list =>
    .ok { s with list := { s.list with m := s.list.m + 1 },
                 trace := s.trace ++ [.acquire lt .list] }
  | .node p =>
    match poke s p (fun nd => { nd with m := nd.m + 1 }) with
    | .ok s1 => .ok { s1 with trace := s1.trace ++ [.acquire lt (.node p)] }
    | .error e => .error e

/-- Modelled from the spec: the `UNLOCK` macro of the missing `ll.h` (release a lock).  The
hold count goes down by one and stays at zero when the lock was not held. -/
def UNLOCK (r : LockRef) (s : State α) : Except Crash (State α) :=
  match r with
  | .list =>
    .ok { s with list := { s.list with m := s.list.m - 1 },
                 trace := s.trace ++ [.release .list] }
  | .node p =>
    match poke s p (fun nd => { nd with m := nd.m - 1 }) with
    | .ok s1 => .ok { s1 with trace := s1.trace ++ [.release (.node p)] }
    | .error e => .error e

/-- The call `free(p)`: nothing for NULL, otherwise the cell must be live. -/
def free (s : State α) (p : Ptr) : Except Crash (State α) :=
  match p with
  | none => .ok s
  | some a =>
    match s.cells[a]? with
    | some (some _) => .ok { s with cells := s.cells.set a none }
    | _ => .error .fault

/-- The write `list->hd = p`. -/
def set_hd (s : State α) (p : Ptr) : State α :=
  { s with list := { s.list with hd := p } }

/-- The write `list->len = k`. -/
def set_len (s : State α) (k : Int) : State α :=
  { s with list := { s.list with len := k } }

/-- The call `list->val_teardown(v)`. -/
def val_teardown (s : State α) (v : α) : State α :=
  { s with torn := s.torn ++ [v] }

/-- The function `ll_new_node`: a fresh cell holding `val`, with no successor. -/
def ll_new_node (s : State α) (val : α) : Ptr × State α :=
  (some s.cells.length, { s with cells := s.cells ++ [some { val := val, nxt := none, m := 0 }] })

/-- The `for (n--; n > 0; n--)` loop of `ll_select_n`; the first argument is the number of
iterations left, the second the current `*node`. -/
def select_loop (lt : locktype) : Nat → Ptr → State α → Except Crash (Int × Ptr × State α)
  | 0, node, s => .ok (0, node, s)
  | k + 1, node, s =>
    let last := node
    if last = none then .ok (-1, node, s)
    else
      match LOCK lt (.node last) s with
      | .error e => .error e
      | .ok s1 =>
        match get_nxt s1 node with
        | .error e => .error e
        | .ok node1 =>
          if node1 = none then
            match UNLOCK (.node last) s1 with
            | .error e => .error e
            | .ok s2 => .ok (-1, node1, s2)
          else
            match LOCK lt (.node node1) s1 with
            | .error e => .error e
            | .ok s2 =>
              match UNLOCK (.node last) s2 with
              | .error e => .error e
              | .ok s3 => select_loop lt k node1 s3

/-- The function `ll_select_n`.  `node` is the content of the caller's variable when the call
is made; the result is the return code, the final content of that variable and the state. -/
def ll_select_n (s : State α) (node : Ptr) (n : Int) (lt : locktype) :
    Except Crash (Int × Ptr × State α) :=
  if n < 0 then .ok (-1, node, s)
  else if n = 0 then .ok (0, node, s)
  else select_loop lt (n - 1).toNat s.list.hd s

/-- The tail of `ll_insert_n`: `LOCK; (list->len)++; UNLOCK; return list->len`. -/
def insert_finish (s : State α) : Except Crash (Int × State α) :=
  match LOCK .l_write .list s with
  | .error e => .error e
  | .ok s1 =>
    match UNLOCK .list (set_len s1 (s1.list.len + 1)) with
    | .error e => .error e
    | .ok s2 => .ok (s2.list.len, s2)

/-- The function `ll_insert_n`.  `junk` is the indeterminate initial value of `nth_node`. -/
def ll_insert_n (s : State α) (val : α) (n : Int) (junk : Ptr) : Except Crash (Int × State α) :=
  match ll_select_n s junk n .l_write with
  | .error e => .error e
  | .ok (r, nth_node, s1) =>
    if r ≠ 0 then .ok (-1, s1)
    else
      let (new_node, s2) := ll_new_node s1 val
      if n = 0 then
        match set_nxt s2 new_node s2.list.hd with
        | .error e => .error e
        | .ok s3 =>
          match get_nxt s3 new_node with
          | .error e => .error e
          | .ok nx =>
            match (if nx ≠ none then UNLOCK (.node nx) s3 else Except.ok s3) with
            | .error e => .error e
            | .ok s4 =>
              match LOCK .l_write .list s4 with
              | .error e => .error e
              | .ok s5 =>
                match UNLOCK .list (set_hd s5 new_node) with
                | .error e => .error e
                | .ok s6 => insert_finish s6
      else if s2.list.len > 0 then
        match get_nxt s2 nth_node with
        | .error e => .error e
        | .ok nx =>
          match set_nxt s2 new_node nx with
          | .error e => .error e
          | .ok s3 =>
            match set_nxt s3 nth_node new_node with
            | .error e => .error e
            | .ok s4 =>
              match UNLOCK (.node nth_node) s4 with
              | .error e => .error e
              | .ok s5 => insert_finish s5
      else
        match UNLOCK (.node nth_node) s2 with
        | .error e => .error e
        | .ok s3 =>
          match free s3 new_node with
          | .error e => .error e
          | .ok s4 => .ok (-1, s4)

/-- The function `ll_insert_first`. -/
def ll_insert_first (s : State α) (val : α) (junk : Ptr) : Except Crash (Int × State α) :=
  ll_insert_n s val 0 junk

/-- The function `ll_insert_last`. -/
def ll_insert_last (s : State α) (val : α) (junk : Ptr) : Except Crash (Int × State α) :=
  ll_insert_n s val s.list.len junk

/-- The tail of `ll_remove_n` from `UNLOCK(nth_node->m)` on. -/
def remove_finish (s : State α) (nth_node tmp : Ptr) : Except Crash (Int × State α) :=
  match UNLOCK (.node nth_node) s with
  | .error e => .error e
  | .ok s1 =>
    match UNLOCK .list (set_len s1 (s1.list.len - 1)) with
    | .error e => .error e
    | .ok s2 =>
      match get_val s2 tmp with
      | .error e => .error e
      | .ok v =>
        match free (val_teardown s2 v) tmp with
        | .error e => .error e
        | .ok s3 => .ok (s3.list.len, s3)

/-- The function `ll_remove_n`.  `junk` is the indeterminate initial value of `nth_node`. -/
def ll_remove_n (s : State α) (n : Int) (junk : Ptr) : Except Crash (Int × State α) :=
  match ll_select_n s junk n .l_write with
  | .error e => .error e
  | .ok (r, nth_node, s1) =>
    if r ≠ 0 then .ok (-1, s1)
    else if n = 0 ∧ s1.list.len > 0 then
      let tmp := s1.list.hd
      match LOCK .l_write .list s1 with
      | .error e => .error e
      | .ok s2 =>
        match get_nxt s2 tmp with
        | .error e => .error e
        | .ok nx => remove_finish (set_hd s2 nx) nth_node tmp
    else
      match get_nxt s1 nth_node with
      | .error e => .error e
      | .ok tmp =>
        match (if tmp = none then Except.ok none else get_nxt s1 tmp) with
        | .error e => .error e
        | .ok nn =>
          match set_nxt s1 nth_node nn with
          | .error e => .error e
          | .ok s2 =>
            match LOCK .l_write .list s2 with
            | .error e => .error e
            | .ok s3 => remove_finish s3 nth_node tmp

/-- The function `ll_remove_first`. -/
def ll_remove_first (s : State α) (junk : Ptr) : Except Crash (Int × State α) :=
  ll_remove_n s 0 junk

/-- The `while ((node != NULL) && !(cond(node->val)))` loop of `ll_remove_search`; the first
argument bounds the number of tests of the loop condition, the result is `(last, node)`. -/
def search_loop (cond : α → Bool) (s : State α) : Nat → Ptr → Ptr → Except Crash (Ptr × Ptr)
  | 0, _, _ => .error .hang
  | k + 1, last, node =>
    if node = none then .ok (last, node)
    else
      match get_val s node with
      | .error e => .error e
      | .ok v =>
        if cond v then .ok (last, node)
        else
          match get_nxt s node with
          | .error e => .error e
          | .ok nx => search_loop cond s k node nx

/-- The unlink step of `ll_remove_search`: the `else if (node == list->hd) ... else ...`
branches. -/
def search_unlink (s : State α) (last node : Ptr) : Except Crash (State α) :=
  if node = s.list.hd then
    match LOCK .l_write .list s with
    | .error e => .error e
    | .ok s1 =>
      match get_nxt s1 node with
      | .error e => .error e
      | .ok nx => UNLOCK .list (set_hd s1 nx)
  else
    match LOCK .l_write (.node last) s with
    | .error e => .error e
    | .ok s1 =>
      match get_nxt s1 node with
      | .error e => .error e
      | .ok nx =>
        match set_nxt s1 last nx with
        | .error e => .error e
        | .ok s2 => UNLOCK (.node last) s2

/-- The function `ll_remove_search`.  A chain of live nodes that does not end within
`cells.length + 1` tests of the loop condition visits some node twice, so the C loop does
not end either. -/
def ll_remove_search (s : State α) (cond : α → Bool) : Except Crash (Int × State α) :=
  match search_loop cond s (s.cells.length + 1) none s.list.hd with
  | .error e => .error e
  | .ok (last, node) =>
    if node = none then .ok (-1, s)
    else
      match search_unlink s last node with
      | .error e => .error e
      | .ok s3 =>
        match get_val s3 node with
        | .error e => .error e
        | .ok v =>
          match free (val_teardown s3 v) node with
          | .error e => .error e
          | .ok s4 =>
            match LOCK .l_write .list s4 with
            | .error e => .error e
            | .ok s5 =>
              match UNLOCK .list (set_len s5 (s5.list.len - 1)) with
              | .error e => .error e
              | .ok s6 => .ok (s6.list.len, s6)

/-- The function `ll_get_n`; `none` is the NULL return.  `junk` is the indeterminate initial
value of `node`. -/
def ll_get_n (s : State α) (n : Int) (junk : Ptr) : Except Crash (Option α × State α) :=
  match ll_select_n s junk (n + 1) .l_read with
  | .error e => .error e
  | .ok (r, node, s1) =>
    if r ≠ 0 then .ok (none, s1)
    else
      match UNLOCK (.node node) s1 with
      | .error e => .error e
      | .ok s2 =>
        match get_val s2 node with
        | .error e => .error e
        | .ok v => .ok (some v, s2)

/-- The function `ll_get_first`. -/
def ll_get_first (s : State α) (junk : Ptr) : Except Crash (Option α × State α) :=
  ll_get_n s 0 junk

/-- Nodes met when following `nxt` from `p`, with their values; `none` when the walk meets a
dead cell or does not reach NULL within the given number of steps. -/
def walk (cells : List (Option (ll_node α))) : Nat → Ptr → Option (List (Nat × α))
  | _, none => some []
  | 0, some _ => none
  | k + 1, some a =>
    match cells[a]? with
    | some (some nd) =>
      match walk cells k nd.nxt with
      | some l => some ((a, nd.val) :: l)
      | none => none
    | _ => none

/-- The values of the nodes reachable from `hd`, head to tail. -/
def chain (s : State α) : Option (List α) :=
  match walk s.cells s.cells.length s.list.hd with
  | some l => some (l.map Prod.snd)
  | none => none

/-- What the chain sees of a cell: value and successor of a live cell. -/
def view (cells : List (Option (ll_node α))) (a : Nat) : Option (α × Ptr) :=
  match cells[a]? with
  | some (some nd) => some (nd.val, nd.nxt)
  | _ => none

/-- The pointer to the first node of a sequence of nodes, `q` when the sequence is empty. -/
def first (l : List (Nat × α)) (q : Ptr) : Ptr :=
  match l with
  | [] => q
  | (a, _) :: _ => some a

/-- The value of `last` when the scan of `ll_remove_search` has passed the nodes `l`, starting
from `p`. -/
def lastOf : List (Nat × α) → Ptr → Ptr
  | [], p => p
  | (b, _) :: l, _ => lastOf l (some b)

/-- Every node of `l` is live, holds its value, and points to the next node of `l`, the last
one to `q`. -/
def Linked (v : Nat → Option (α × Ptr)) : List (Nat × α) → Ptr → Prop
  | [], _ => True
  | (a, x) :: l, q => v a = some (x, first l q) ∧ Linked v l q

/-- The part of a state that does not depend on locks: cell contents, heap size, head, length
and the teardown calls. -/
structure Data (α : Type) where
  v : Nat → Option (α × Ptr)
  size : Nat
  hd : Ptr
  len : Int
  torn : List α

/-- The lock-free part of a state. -/
def abs (s : State α) : Data α :=
  { v := view s.cells, size := s.cells.length, hd := s.list.hd, len := s.list.len,
    torn := s.torn }

/-- The chain of a state is the node sequence `l`. -/
def IsChain (s : State α) (l : List (Nat × α)) : Prop :=
  s.list.hd = first l none ∧ Linked (view s.cells) l none

/-- The invariant of the list: the nodes reachable from `hd` form a finite chain ending in
NULL, `len` is their number, and no other cell is live. -/
def Inv (s : State α) : Prop :=
  ∃ l : List (Nat × α), IsChain s l ∧ s.list.len = l.length ∧
    ∀ a, view s.cells a ≠ none → a ∈ l.map Prod.fst

/-- One call of the mutating interface, with the indeterminate initial value of the local
pointer of `ll_insert_n` and `ll_remove_n`. -/
inductive Op (α : Type) where
  | insert_first (val : α) (junk : Ptr)
  | insert_last (val : α) (junk : Ptr)
  | insert_n (val : α) (n : Int) (junk : Ptr)
  | remove_first (junk : Ptr)
  | remove_n (n : Int) (junk : Ptr)
  | remove_search (cond : α → Bool)

/-- Run one call. -/
def Op.run (s : State α) : Op α → Except Crash (Int × State α)
  | .insert_first val junk => ll_insert_first s val junk
  | .insert_last val junk => ll_insert_last s val junk
  | .insert_n val n junk => ll_insert_n s val n junk
  | .remove_first junk => ll_remove_first s junk
  | .remove_n n junk => ll_remove_n s n junk
  | .remove_search cond => ll_remove_search s cond

/-- Run a sequence of calls, one after the other, from a state. -/
def runOps (s : State α) : List (Op α) → Except Crash (State α)
  | [] => .ok s
  | op :: ops =>
    match op.run s with
    | .error e => .error e
    | .ok (_, s1) => runOps s1 ops

/-- The `while (node != NULL)` loop of `ll_delete`; the first argument bounds the number of
tests of the loop condition, the second is `node`.  Every iteration frees a live node, so
`cells.length + 1` tests are never used up. -/
def delete_loop : Nat → Ptr → State α → Except Crash (State α)
  | 0, _, _ => .error .hang
  | k + 1, node, s =>
    if node = none then .ok s
    else
      match LOCK .l_write (.node node) s with
      | .error e => .error e
      | .ok s1 =>
        match get_val s1 node with
        | .error e => .error e
        | .ok v =>
          match UNLOCK (.node node) (val_teardown s1 v) with
          | .error e => .error e
          | .ok s2 =>
            let tmp := node
            match get_nxt s2 node with
            | .error e => .error e
            | .ok node1 =>
              match free s2 tmp with
              | .error e => .error e
              | .ok s3 => delete_loop k node1 (set_len s3 (s3.list.len - 1))

/-- The function `ll_delete`, up to `UNLOCK(list->m)`.  The calls of `pthread_rwlock_destroy`
and the final `free(list)` have no counterpart in the state: the handle is not used after
the call. -/
def ll_delete (s : State α) : Except Crash (State α) :=
  let node := s.list.hd
  match LOCK .l_write .list s with
  | .error e => .error e
  | .ok s1 =>
    match delete_loop (s.cells.length + 1) node s1 with
    | .error e => .error e
    | .ok s2 => UNLOCK .list (set_hd s2 none)

/-- The `while (node != NULL)` loop of `ll_map`; the first argument bounds the number of
tests of the loop condition, the second is `node`.  The result lists the values `f` was
called on, in call order.  A chain of live nodes that is not over after `cells.length + 1`
tests visits a node twice, so the C loop does not end either. -/
def map_loop : Nat → Ptr → State α → Except Crash (List α × State α)
  | 0, _, _ => .error .hang
  | k + 1, node, s =>
    if node = none then .ok ([], s)
    else
      match LOCK .l_read (.node node) s with
      | .error e => .error e
      | .ok s1 =>
        match get_val s1 node with
        | .error e => .error e
        | .ok v =>
          match UNLOCK (.node node) s1 with
          | .error e => .error e
          | .ok s2 =>
            match get_nxt s2 node with
            | .error e => .error e
            | .ok node1 =>
              match map_loop k node1 s2 with
              | .error e => .error e
              | .ok (vs, s3) => .ok (v :: vs, s3)

/-- The function `ll_map`.  The callback `f` is supplied by the caller: the result lists the
values it was called on, in call order. -/
def ll_map (s : State α) : Except Crash (List α × State α) :=
  map_loop (s.cells.length + 1) s.list.hd s

/-- The calls `ll_get_n(list, i)`, `ll_get_n(list, i + 1)`, ... (`k` calls, one after the
other); `junk i` is the content of the unset local of the call for index `i`. -/
def get_range (junk : Nat → Ptr) : Nat → Nat → State α → Except Crash (List (Option α) × State α)
  | _, 0, s => .ok ([], s)
  | i, k + 1, s =>
    match ll_get_n s (i : Int) (junk i) with
    | .error e => .error e
    | .ok (v, s1) =>
      match get_range junk (i + 1) k s1 with
      | .error e => .error e
      | .ok (vs, s2) => .ok (v :: vs, s2)

/-- The hold count of the lock `r` after the lock operations `tr`, counted from zero. -/
def holdCount (r : LockRef) (tr : List LockEv) : Nat :=
  tr.foldl (fun n ev =>
    match ev with
    | .acquire _ q => if q = r then n + 1 else n
    | .release q => if q = r then n - 1 else n) 0

/-- Some `LOCK` of `tr` is issued on a lock whose hold count is not zero at that point. -/
def locksHeldLock (tr : List LockEv) : Bool :=
  (List.range tr.length).any fun i =>
    match tr[i]? with
    | some (.acquire _ r) => decide (0 < holdCount r (tr.take i))
    | _ => false

/-- Some `UNLOCK` of `tr` is issued on a lock whose hold count is zero at that point. -/
def unlocksFreeLock (tr : List LockEv) : Bool :=
  (List.range tr.length).any fun i =>
    match tr[i]? with
    | some (.release r) => decide (holdCount r (tr.take i) = 0)
    | _ => false

/-- The lock operations issued between the state `s` and the later state `s1`. -/
def callTrace (s s1 : State α) : List LockEv :=
  s1.trace.drop s.trace.length

/-- The hold count stored in the lock of the node at address `a`, zero for a dead cell. -/
def nodeHold (s : State α) (a : Nat) : Nat :=
  match s.cells[a]? with
  | some (some nd) => nd.m
  | _ => 0

/-- The calls that remove a node: `ll_remove_first`, `ll_remove_n` and `ll_remove_search`. -/
def Op.isRemove : Op α → Bool
  | .remove_first _ => true
  | .remove_n _ _ => true
  | .remove_search _ => true
  | _ => false

/-- The hold counts stored in the node locks, by address. -/
def holds (s : State α) : List Nat :=
  (List.range s.cells.length).map (nodeHold s)

/-- What a call of `ll_select_n` on `s` shows when it returns: the return code, the final
`*node`, the lock operations the call issued and the hold counts of the node locks after
it. -/
def selectObs (s : State α) (node : Ptr) (n : Int) (lt : locktype) :
    Option (Int × Ptr × List LockEv × List Nat) :=
  match ll_select_n s node n lt with
  | .ok (r, nd, s1) => some (r, nd, callTrace s s1, holds s1)
  | .error _ => none

/-- What a call that ended in the result `r` shows of the locks when it returns: the lock
operations it issued, the hold counts of the node locks and the hold count of the list lock
after it. -/
def lockObs {β : Type} (s : State α) (r : Except Crash (β × State α)) :
    Option (List LockEv × List Nat × Nat) :=
  match r with
  | .ok (_, s1) => some (callTrace s s1, holds s1, s1.list.m)
  | .error _ => none

/-- The state a run of calls ends in; the new list when the run does not return. -/
def stateOf (r : Except Crash (State Nat)) : State Nat :=
  match r with
  | .ok s => s
  | .error _ => ll_new

/-- The list `[10]`: one `ll_insert_last` on a new list. -/
def demo1 : State Nat :=
  stateOf (runOps ll_new [.insert_last 10 none])

/-- The list `[10, 20, 30]`: three `ll_insert_last` calls on a new list. -/
def demo3 : State Nat :=
  stateOf (runOps ll_new [.insert_last 10 none, .insert_last 20 none, .insert_last 30 none])

/-- The predicate `num_equals_3` of the test program. -/
def num_equals_3 (n : Nat) : Bool := n == 3

/-- The calls of the test program in `main`, on the values `0 .. 6` and `3, 3`.  The local
`nth_node` of the `ll_remove_first` call is taken to hold the address of a live node. -/
def mainOps : List (Op Nat) :=
  [.insert_first 2 none, .insert_first 1 none, .insert_first 0 none,
   .insert_last 3 none, .insert_last 4 none, .insert_last 5 none, .insert_n 6 5 none,
   .remove_first (some 0), .remove_n 1 none, .remove_n 2 none, .remove_n 5 none,
   .remove_search num_equals_3, .insert_first 3 none, .insert_last 3 none,
   .remove_search num_equals_3, .remove_search num_equals_3]

/-- The state at the end of the test program, before `ll_delete`. -/
def mainState : State Nat :=
  stateOf (runOps ll_new mainOps)

/-- The list `[10]` during `ll_remove_n(list, 1)`, after `nth_node->nxt = NULL` (the value of
`nth_node->nxt == NULL ? NULL : nth_node->nxt->nxt`). -/
def demo1Relinked : State Nat :=
  stateOf (set_nxt demo1 (some 0) none)

/-- The list `[10]` during `ll_remove_n(list, 1)`, after `LOCK(l_write, list->m)`. -/
def demo1Locked : State Nat :=
  stateOf (LOCK .l_write .list demo1Relinked)

/-- The list `[10]` during `ll_remove_n(list, 1)`, after `UNLOCK(nth_node->m)`. -/
def demo1Unlocked : State Nat :=
  stateOf (UNLOCK (.node (some 0)) demo1Locked)

/-- The list `[10]` during `ll_remove_n(list, 1)`, after `(list->len)--` and
`UNLOCK(list->m)`: the state in which `list->val_teardown(tmp->val)` is reached. -/
def demo1AtTeardown : State Nat :=
  stateOf (UNLOCK .list (set_len demo1Unlocked (demo1Unlocked.list.len - 1)))

/-! ## Cells and views -/

theorem view_eq_some {cs : List (Option (ll_node α))} {a : Nat} {x : α} {w : Ptr} :
    view cs a = some (x, w) ↔ ∃ m, cs[a]? = some (some ⟨x, w, m⟩) := by
  unfold view
  constructor
  · intro h
    split at h
    · rename_i nd hnd
      simp only [Option.some.injEq, Prod.mk.injEq] at h
      obtain ⟨rfl, rfl⟩ := h
      exact ⟨nd.m, hnd⟩
    · simp at h
  · rintro ⟨m, hm⟩
    simp [hm]

theorem view_eq_none {cs : List (Option (ll_node α))} {a : Nat} :
    view cs a = none ↔ ∀ nd, cs[a]? ≠ some (some nd) := by
  unfold view
  constructor
  · intro h nd hnd
    simp [hnd] at h
  · intro h
    split
    · rename_i nd hnd
      exact absurd hnd (h nd)
    · rfl

theorem view_lt {cs : List (Option (ll_node α))} {a : Nat} (h : view cs a ≠ none) :
    a < cs.length := by
  by_contra hlt
  apply h
  unfold view
  rw [List.getElem?_eq_none (by omega)]

theorem view_set_some (cs : List (Option (ll_node α))) (a b : Nat) (nd : ll_node α)
    (ha : a < cs.length) :
    view (cs.set a (some nd)) b = if b = a then some (nd.val, nd.nxt) else view cs b := by
  unfold view
  rw [List.getElem?_set]
  by_cases hab : a = b
  · subst hab
    simp [ha]
  · have hba : ¬ b = a := fun h => hab h.symm
    simp [hab, hba]

theorem view_set_none (cs : List (Option (ll_node α))) (a b : Nat) :
    view (cs.set a none) b = if b = a then none else view cs b := by
  unfold view
  rw [List.getElem?_set]
  by_cases hab : a = b
  · subst hab
    by_cases ha : a < cs.length <;> simp [ha]
  · have hba : ¬ b = a := fun h => hab h.symm
    simp [hab, hba]

theorem view_append (cs : List (Option (ll_node α))) (b : Nat) (nd : ll_node α) :
    view (cs ++ [some nd]) b = if b = cs.length then some (nd.val, nd.nxt) else view cs b := by
  unfold view
  by_cases hb : b = cs.length
  · subst hb
    simp
  · simp only [hb, if_false]
    by_cases hlt : b < cs.length
    · rw [List.getElem?_append_left hlt]
    · have h1 : cs[b]? = none := List.getElem?_eq_none (by omega)
      have h2 : (cs ++ [some nd])[b]? = none :=
        List.getElem?_eq_none (by simp; omega)
      rw [h1, h2]

/-! ## Linked sequences -/

theorem Linked_congr {v w : Nat → Option (α × Ptr)} {l : List (Nat × α)} {q : Ptr}
    (h : ∀ p ∈ l, w p.1 = v p.1) (hl : Linked v l q) : Linked w l q := by
  induction l with
  | nil => trivial
  | cons p l ih =>
    obtain ⟨a, x⟩ := p
    simp only [Linked] at hl ⊢
    refine ⟨?_, ih (fun p hp => h p (List.mem_cons_of_mem _ hp)) hl.2⟩
    rw [h (a, x) (List.mem_cons_self _ _)]
    exact hl.1

theorem first_append (l1 l2 : List (Nat × α)) (q : Ptr) :
    first (l1 ++ l2) q = first l1 (first l2 q) := by
  cases l1 with
  | nil => rfl
  | cons p l1 => rfl

theorem Linked_append {v : Nat → Option (α × Ptr)} {l1 l2 : List (Nat × α)} {q : Ptr} :
    Linked v (l1 ++ l2) q ↔ Linked v l1 (first l2 q) ∧ Linked v l2 q := by
  induction l1 with
  | nil => simp [Linked]
  | cons p l1 ih =>
    obtain ⟨a, x⟩ := p
    show v a = some (x, first (l1 ++ l2) q) ∧ Linked v (l1 ++ l2) q ↔ _
    rw [ih, first_append]
    simp only [Linked, and_assoc]

theorem Linked_live {v : Nat → Option (α × Ptr)} {l : List (Nat × α)} {q : Ptr}
    (hl : Linked v l q) : ∀ a ∈ l.map Prod.fst, v a ≠ none := by
  induction l with
  | nil => simp
  | cons p l ih =>
    obtain ⟨b, x⟩ := p
    intro a ha
    simp only [List.map_cons, List.mem_cons] at ha
    rcases ha with rfl | ha
    · rw [hl.1]
      simp
    · exact ih hl.2 a ha

theorem Linked_det {v : Nat → Option (α × Ptr)} {l1 l2 : List (Nat × α)}
    (h1 : Linked v l1 none) (h2 : Linked v l2 none) (hf : first l1 none = first l2 none) :
    l1 = l2 := by
  induction l1 generalizing l2 with
  | nil =>
    cases l2 with
    | nil => rfl
    | cons p l2 =>
      obtain ⟨b, y⟩ := p
      simp [first] at hf
  | cons p l1 ih =>
    obtain ⟨a, x⟩ := p
    cases l2 with
    | nil => simp [first] at hf
    | cons p2 l2 =>
      obtain ⟨b, y⟩ := p2
      simp only [first, Option.some.injEq] at hf
      subst hf
      have e := h1.1.symm.trans h2.1
      simp only [Option.some.injEq, Prod.mk.injEq] at e
      obtain ⟨rfl, e2⟩ := e
      rw [ih h1.2 h2.2 e2]

theorem Linked_nodup {v : Nat → Option (α × Ptr)} {l : List (Nat × α)}
    (hl : Linked v l none) : (l.map Prod.fst).Nodup := by
  induction l with
  | nil => simp
  | cons p l ih =>
    obtain ⟨a, x⟩ := p
    rw [List.map_cons, List.nodup_cons]
    refine ⟨?_, ih hl.2⟩
    intro ha
    obtain ⟨⟨a2, y⟩, hmem, rfl⟩ := List.mem_map.1 ha
    obtain ⟨r1, r2, hr⟩ := List.append_of_mem hmem
    have h2 := hl.2
    rw [hr, Linked_append] at h2
    have e := hl.1.symm.trans h2.2.1
    simp only [Option.some.injEq, Prod.mk.injEq] at e
    have hd := Linked_det hl.2 h2.2.2 e.2
    have hlen := congrArg List.length hr
    rw [hd] at hlen
    simp at hlen
    omega

theorem Linked_length_le {cs : List (Option (ll_node α))} {l : List (Nat × α)}
    (hl : Linked (view cs) l none) : l.length ≤ cs.length := by
  have hnd := Linked_nodup hl
  have hsub : (l.map Prod.fst).toFinset ⊆ Finset.range cs.length := by
    intro a ha
    rw [List.mem_toFinset] at ha
    exact Finset.mem_range.2 (view_lt (Linked_live hl a ha))
  have hcard := Finset.card_le_card hsub
  rw [List.toFinset_card_of_nodup hnd, Finset.card_range, List.length_map] at hcard
  exact hcard

theorem walk_sound {cs : List (Option (ll_node α))} {k : Nat} {p : Ptr}
    {l : List (Nat × α)} (h : walk cs k p = some l) :
    p = first l none ∧ Linked (view cs) l none := by
  induction k generalizing p l with
  | zero =>
    cases p with
    | none =>
      simp only [walk, Option.some.injEq] at h
      subst h
      exact ⟨rfl, trivial⟩
    | some a => simp [walk] at h
  | succ k ih =>
    cases p with
    | none =>
      simp only [walk, Option.some.injEq] at h
      subst h
      exact ⟨rfl, trivial⟩
    | some a =>
      simp only [walk] at h
      split at h
      · rename_i nd hnd
        split at h
        · rename_i l2 hl2
          simp only [Option.some.injEq] at h
          subst h
          obtain ⟨hp, hlk⟩ := ih hl2
          refine ⟨rfl, ?_, hlk⟩
          rw [← hp]
          exact view_eq_some.2 ⟨nd.m, hnd⟩
        · simp at h
      · simp at h

theorem walk_complete {cs : List (Option (ll_node α))} {l : List (Nat × α)}
    (hl : Linked (view cs) l none) {k : Nat} (hk : l.length ≤ k) :
    walk cs k (first l none) = some l := by
  induction l generalizing k with
  | nil => cases k <;> simp [first, walk]
  | cons p l ih =>
    obtain ⟨a, x⟩ := p
    cases k with
    | zero => simp at hk
    | succ k =>
      obtain ⟨m, hm⟩ := view_eq_some.1 hl.1
      have hrec := ih hl.2 (Nat.le_of_succ_le_succ hk)
      show walk cs (k + 1) (some a) = some ((a, x) :: l)
      simp only [walk, hm, hrec]

theorem chain_eq_some_iff {s : State α} {xs : List α} :
    chain s = some xs ↔ ∃ l, IsChain s l ∧ l.map Prod.snd = xs := by
  unfold chain IsChain
  constructor
  · intro h
    split at h
    · rename_i l hl
      simp only [Option.some.injEq] at h
      exact ⟨l, walk_sound hl, h⟩
    · simp at h
  · rintro ⟨l, ⟨hhd, hlk⟩, rfl⟩
    rw [hhd, walk_complete hlk (Linked_length_le hlk)]

/-! ## Primitive steps -/

theorem get_nxt_ok {s : State α} {a : Nat} {x : α} {w : Ptr}
    (h : view s.cells a = some (x, w)) : get_nxt s (some a) = .ok w := by
  obtain ⟨m, hm⟩ := view_eq_some.1 h
  simp [get_nxt, deref, hm]

theorem get_val_ok {s : State α} {a : Nat} {x : α} {w : Ptr}
    (h : view s.cells a = some (x, w)) : get_val s (some a) = .ok x := by
  obtain ⟨m, hm⟩ := view_eq_some.1 h
  simp [get_val, deref, hm]

theorem deref_dead {s : State α} {a : Nat} (h : view s.cells a = none) :
    deref s (some a) = .error .fault := by
  have h2 := view_eq_none.1 h
  simp only [deref]

theorem get_nxt_dead {s : State α} {a : Nat} (h : view s.cells a = none) :
    get_nxt s (some a) = .error .fault := by
  simp [get_nxt, deref_dead h]

theorem get_val_dead {s : State α} {a : Nat} (h : view s.cells a = none) :
    get_val s (some a) = .error .fault := by
  simp [get_val, deref_dead h]

theorem poke_ok {s : State α} {a : Nat} {x : α} {w : Ptr}
    (h : view s.cells a = some (x, w)) (f : ll_node α → ll_node α) :
    ∃ m, poke s (some a) f = .ok { s with cells := s.cells.set a (some (f ⟨x, w, m⟩)) } := by
  obtain ⟨m, hm⟩ := view_eq_some.1 h
  exact ⟨m, by simp [poke, hm]⟩

theorem poke_dead {s : State α} {a : Nat} (h : view s.cells a = none)
    (f : ll_node α → ll_node α) : poke s (some a) f = .error .fault := by
  have h2 := view_eq_none.1 h
  simp only [poke]

theorem abs_poke {s : State α} {a : Nat} {x : α} {w : Ptr}
    (h : view s.cells a = some (x, w)) (nd : ll_node α) :
    abs { s with cells := s.cells.set a (some nd) } =
      ⟨Function.update (abs s).v a (some (nd.val, nd.nxt)), s.cells.length, s.list.hd,
        s.list.len, s.torn⟩ := by
  have hlt : a < s.cells.length := view_lt (by rw [h]; simp)
  simp only [abs, List.length_set, Data.mk.injEq, and_true, true_and]
  funext b
  rw [view_set_some _ _ _ _ hlt]
  by_cases hb : b = a
  · subst hb
    simp
  · simp [hb]

theorem update_same_view {s : State α} {a : Nat} {x : α} {w : Ptr}
    (h : view s.cells a = some (x, w)) :
    Function.update (abs s).v a (some (x, w)) = (abs s).v := by
  funext b
  by_cases hb : b = a
  · subst hb
    simp [abs, h]
  · simp [hb]

theorem set_nxt_ok {s : State α} {a : Nat} {x : α} {w : Ptr}
    (h : view s.cells a = some (x, w)) (q : Ptr) :
    ∃ s1, set_nxt s (some a) q = .ok s1 ∧
      abs s1 = ⟨Function.update (abs s).v a (some (x, q)), s.cells.length, s.list.hd,
        s.list.len, s.torn⟩ := by
  obtain ⟨m, hm⟩ := poke_ok h (fun nd => { nd with nxt := q })
  exact ⟨_, hm, abs_poke h _⟩

theorem LOCK_list_ok (lt : locktype) (s : State α) :
    ∃ s1, LOCK lt .list s = .ok s1 ∧ abs s1 = abs s :=
  ⟨_, rfl, rfl⟩

theorem UNLOCK_list_ok (s : State α) :
    ∃ s1, UNLOCK .list s = .ok s1 ∧ abs s1 = abs s :=
  ⟨_, rfl, rfl⟩

theorem LOCK_node_ok {s : State α} {a : Nat} {x : α} {w : Ptr}
    (h : view s.cells a = some (x, w)) (lt : locktype) :
    ∃ s1, LOCK lt (.node (some a)) s = .ok s1 ∧ abs s1 = abs s := by
  obtain ⟨m, hm⟩ := poke_ok h (fun nd => { nd with m := nd.m + 1 })
  have e := abs_poke h (⟨x, w, m + 1⟩ : ll_node α)
  rw [update_same_view h] at e
  simp only [LOCK, hm]
  exact ⟨_, rfl, e⟩

theorem UNLOCK_node_ok {s : State α} {a : Nat} {x : α} {w : Ptr}
    (h : view s.cells a = some (x, w)) :
    ∃ s1, UNLOCK (.node (some a)) s = .ok s1 ∧ abs s1 = abs s := by
  obtain ⟨m, hm⟩ := poke_ok h (fun nd => { nd with m := nd.m - 1 })
  have e := abs_poke h (⟨x, w, m - 1⟩ : ll_node α)
  rw [update_same_view h] at e
  simp only [UNLOCK, hm]
  exact ⟨_, rfl, e⟩

theorem LOCK_node_dead {s : State α} {a : Nat} (h : view s.cells a = none) (lt : locktype) :
    LOCK lt (.node (some a)) s = .error .fault := by
  simp only [LOCK, poke_dead h]

theorem UNLOCK_node_dead {s : State α} {a : Nat} (h : view s.cells a = none) :
    UNLOCK (.node (some a)) s = .error .fault := by
  simp only [UNLOCK, poke_dead h]

theorem UNLOCK_null (s : State α) : UNLOCK (.node none) s = .error .fault := rfl

theorem get_nxt_null (s : State α) : get_nxt s none = .error .fault := rfl

theorem get_val_null (s : State α) : get_val s none = .error .fault := rfl

theorem free_ok {s : State α} {a : Nat} {x : α} {w : Ptr}
    (h : view s.cells a = some (x, w)) :
    ∃ s1, free s (some a) = .ok s1 ∧
      abs s1 = ⟨Function.update (abs s).v a none, s.cells.length, s.list.hd, s.list.len,
        s.torn⟩ := by
  obtain ⟨m, hm⟩ := view_eq_some.1 h
  refine ⟨{ s with cells := s.cells.set a none }, by simp [free, hm], ?_⟩
  simp only [abs, List.length_set, Data.mk.injEq, and_true, true_and]
  funext b
  rw [view_set_none]
  by_cases hb : b = a
  · subst hb
    simp
  · simp [hb]

theorem new_node_ok (s : State α) (val : α) :
    ∃ s1, ll_new_node s val = (some s.cells.length, s1) ∧
      abs s1 = ⟨Function.update (abs s).v s.cells.length (some (val, none)),
        s.cells.length + 1, s.list.hd, s.list.len, s.torn⟩ := by
  refine ⟨_, rfl, ?_⟩
  simp only [abs, List.length_append, List.length_singleton, Data.mk.injEq, and_true, true_and]
  funext b
  rw [view_append]
  by_cases hb : b = s.cells.length
  · subst hb
    simp
  · simp [hb]

theorem abs_view (s : State α) : view s.cells = (abs s).v := rfl

theorem insert_finish_ok (s : State α) :
    ∃ s1, insert_finish s = .ok (s.list.len + 1, s1) ∧
      abs s1 = ⟨view s.cells, s.cells.length, s.list.hd, s.list.len + 1, s.torn⟩ :=
  ⟨_, rfl, rfl⟩

/-! ## Positional selection -/

theorem view_of_abs {s s1 : State α} (h : abs s1 = abs s) (a : Nat) :
    view s1.cells a = view s.cells a := by
  rw [abs_view, abs_view, h]

theorem select_loop_null (lt : locktype) (k : Nat) (s : State α) :
    select_loop lt (k + 1) none s = .ok (-1, none, s) := by
  simp [select_loop]

theorem select_loop_end (lt : locktype) (k : Nat) {s : State α} {a : Nat} {x : α}
    (hv : view s.cells a = some (x, none)) :
    ∃ s2, select_loop lt (k + 1) (some a) s = .ok (-1, none, s2) ∧ abs s2 = abs s := by
  obtain ⟨s1, h1, a1⟩ := LOCK_node_ok hv lt
  have hv1 : view s1.cells a = some (x, none) := by rw [view_of_abs a1]; exact hv
  obtain ⟨s2, h2, a2⟩ := UNLOCK_node_ok hv1
  refine ⟨s2, ?_, a2.trans a1⟩
  simp only [select_loop, reduceCtorEq, if_false, if_true, h1, get_nxt_ok hv1, h2]

theorem select_loop_step (lt : locktype) (k : Nat) {s : State α} {a b : Nat} {x y : α}
    {z : Ptr} (hv : view s.cells a = some (x, some b)) (hb : view s.cells b = some (y, z)) :
    ∃ s3, select_loop lt (k + 1) (some a) s = select_loop lt k (some b) s3 ∧
      abs s3 = abs s := by
  obtain ⟨s1, h1, a1⟩ := LOCK_node_ok hv lt
  have hv1 : view s1.cells a = some (x, some b) := by rw [view_of_abs a1]; exact hv
  have hb1 : view s1.cells b = some (y, z) := by rw [view_of_abs a1]; exact hb
  obtain ⟨s2, h2, a2⟩ := LOCK_node_ok hb1 lt
  have hv2 : view s2.cells a = some (x, some b) := by rw [view_of_abs a2]; exact hv1
  obtain ⟨s3, h3, a3⟩ := UNLOCK_node_ok hv2
  refine ⟨s3, ?_, a3.trans (a2.trans a1)⟩
  simp only [select_loop, reduceCtorEq, if_false, h1, get_nxt_ok hv1, h2, h3]

theorem select_loop_hit (lt : locktype) (k : Nat) :
    ∀ (s : State α) (l : List (Nat × α)), Linked (view s.cells) l none →
      (k = 0 ∨ k < l.length) →
      ∃ s1, select_loop lt k (first l none) s = .ok (0, first (l.drop k) none, s1) ∧
        abs s1 = abs s := by
  induction k with
  | zero =>
    intro s l _ _
    exact ⟨s, by simp [select_loop], rfl⟩
  | succ k ih =>
    intro s l hl hk
    have hk2 : k + 1 < l.length := by omega
    match l, hl, hk2 with
    | [(a, x)], _, hk2 => simp at hk2
    | (a, x) :: (b, y) :: l2, hl, hk2 =>
      obtain ⟨s3, h3, a3⟩ := select_loop_step lt k hl.1 hl.2.1
      have hl3 : Linked (view s3.cells) ((b, y) :: l2) none := by
        rw [abs_view, a3]
        exact hl.2
      obtain ⟨s4, h4, a4⟩ := ih s3 ((b, y) :: l2) hl3 (by simp at hk2 ⊢; omega)
      refine ⟨s4, ?_, a4.trans a3⟩
      show select_loop lt (k + 1) (some a) s = _
      rw [h3]
      exact h4

theorem select_loop_miss (lt : locktype) (k : Nat) :
    ∀ (s : State α) (l : List (Nat × α)), Linked (view s.cells) l none →
      1 ≤ k → l.length ≤ k →
      ∃ nd s1, select_loop lt k (first l none) s = .ok (-1, nd, s1) ∧ abs s1 = abs s := by
  induction k with
  | zero =>
    intro s l _ h1 _
    omega
  | succ k ih =>
    intro s l hl _ hk
    match l, hl, hk with
    | [], _, _ => exact ⟨none, s, select_loop_null lt k s, rfl⟩
    | [(a, x)], hl, _ =>
      obtain ⟨s2, h2, a2⟩ := select_loop_end lt k hl.1
      exact ⟨none, s2, h2, a2⟩
    | (a, x) :: (b, y) :: l2, hl, hk =>
      obtain ⟨s3, h3, a3⟩ := select_loop_step lt k hl.1 hl.2.1
      have hl3 : Linked (view s3.cells) ((b, y) :: l2) none := by
        rw [abs_view, a3]
        exact hl.2
      obtain ⟨nd, s4, h4, a4⟩ := ih s3 ((b, y) :: l2) hl3 (by simp at hk; omega)
        (by simp at hk ⊢; omega)
      refine ⟨nd, s4, ?_, a4.trans a3⟩
      show select_loop lt (k + 1) (some a) s = _
      rw [h3]
      exact h4

theorem ll_select_n_neg (s : State α) (junk : Ptr) {n : Int} (hn : n < 0) (lt : locktype) :
    ll_select_n s junk n lt = .ok (-1, junk, s) := by
  simp [ll_select_n, hn]

theorem ll_select_n_zero (s : State α) (junk : Ptr) (lt : locktype) :
    ll_select_n s junk 0 lt = .ok (0, junk, s) := by
  simp [ll_select_n]

theorem ll_select_n_succ (s : State α) (junk : Ptr) (k : Nat) (lt : locktype) :
    ll_select_n s junk ((k : Int) + 1) lt = select_loop lt k s.list.hd s := by
  have h1 : ¬ ((k : Int) + 1 < 0) := by omega
  have h2 : ¬ ((k : Int) + 1 = 0) := by omega
  simp [ll_select_n, h1, h2]

/-! ## Reading a state through its lock-free part -/

theorem abs_v {s : State α} {d : Data α} (h : abs s = d) : view s.cells = d.v := by
  rw [← h]; rfl

theorem abs_hd {s : State α} {d : Data α} (h : abs s = d) : s.list.hd = d.hd := by
  rw [← h]; rfl

theorem abs_len {s : State α} {d : Data α} (h : abs s = d) : s.list.len = d.len := by
  rw [← h]; rfl

theorem abs_size {s : State α} {d : Data α} (h : abs s = d) : s.cells.length = d.size := by
  rw [← h]; rfl

theorem abs_torn {s : State α} {d : Data α} (h : abs s = d) : s.torn = d.torn := by
  rw [← h]; rfl

theorem view_fresh (s : State α) : view s.cells s.cells.length = none := by
  by_contra h
  exact absurd (view_lt h) (lt_irrefl _)

/-! ## ll_insert_n -/

theorem insert_n_neg (s : State α) (val : α) {n : Int} (hn : n < 0) (junk : Ptr) :
    ll_insert_n s val n junk = .ok (-1, s) := by
  simp [ll_insert_n, ll_select_n_neg s junk hn]

theorem abs_set_hd (s : State α) (p : Ptr) :
    abs (set_hd s p) = ⟨view s.cells, s.cells.length, p, s.list.len, s.torn⟩ := rfl

theorem abs_set_len (s : State α) (k : Int) :
    abs (set_len s k) = ⟨view s.cells, s.cells.length, s.list.hd, k, s.torn⟩ := rfl

theorem abs_val_teardown (s : State α) (x : α) :
    abs (val_teardown s x) =
      ⟨view s.cells, s.cells.length, s.list.hd, s.list.len, s.torn ++ [x]⟩ := rfl

/-! ## Steps, stated on the lock-free part

Each lemma takes the lock-free part of the state before a step and gives the lock-free part
after it. -/

section Steps

variable {s : State α} {v : Nat → Option (α × Ptr)} {n : Nat} {h : Ptr} {len : Int}
  {t : List α}

theorem get_nxt_abs (e : abs s = ⟨v, n, h, len, t⟩) {a : Nat} {x : α} {w : Ptr}
    (hv : v a = some (x, w)) : get_nxt s (some a) = .ok w :=
  get_nxt_ok (by rw [abs_v e]; exact hv)

theorem get_val_abs (e : abs s = ⟨v, n, h, len, t⟩) {a : Nat} {x : α} {w : Ptr}
    (hv : v a = some (x, w)) : get_val s (some a) = .ok x :=
  get_val_ok (by rw [abs_v e]; exact hv)

theorem get_nxt_abs_dead (e : abs s = ⟨v, n, h, len, t⟩) {a : Nat} (hv : v a = none) :
    get_nxt s (some a) = .error .fault :=
  get_nxt_dead (by rw [abs_v e]; exact hv)

theorem UNLOCK_abs_dead (e : abs s = ⟨v, n, h, len, t⟩) {a : Nat} (hv : v a = none) :
    UNLOCK (.node (some a)) s = .error .fault :=
  UNLOCK_node_dead (by rw [abs_v e]; exact hv)

theorem set_nxt_abs (e : abs s = ⟨v, n, h, len, t⟩) {a : Nat} {x : α} {w : Ptr}
    (hv : v a = some (x, w)) (q : Ptr) :
    ∃ s1, set_nxt s (some a) q = .ok s1 ∧
      abs s1 = ⟨Function.update v a (some (x, q)), n, h, len, t⟩ := by
  obtain ⟨s1, h1, a1⟩ := set_nxt_ok (s := s) (a := a) (x := x) (w := w)
    (by rw [abs_v e]; exact hv) q
  refine ⟨s1, h1, ?_⟩
  rw [a1, e, abs_size e, abs_hd e, abs_len e, abs_torn e]

theorem free_abs (e : abs s = ⟨v, n, h, len, t⟩) {a : Nat} {x : α} {w : Ptr}
    (hv : v a = some (x, w)) :
    ∃ s1, free s (some a) = .ok s1 ∧ abs s1 = ⟨Function.update v a none, n, h, len, t⟩ := by
  obtain ⟨s1, h1, a1⟩ := free_ok (s := s) (a := a) (x := x) (w := w)
    (by rw [abs_v e]; exact hv)
  refine ⟨s1, h1, ?_⟩
  rw [a1, e, abs_size e, abs_hd e, abs_len e, abs_torn e]

theorem LOCK_node_abs (e : abs s = ⟨v, n, h, len, t⟩) {a : Nat} {x : α} {w : Ptr}
    (hv : v a = some (x, w)) (lt : locktype) :
    ∃ s1, LOCK lt (.node (some a)) s = .ok s1 ∧ abs s1 = ⟨v, n, h, len, t⟩ := by
  obtain ⟨s1, h1, a1⟩ := LOCK_node_ok (s := s) (a := a) (x := x) (w := w)
    (by rw [abs_v e]; exact hv) lt
  exact ⟨s1, h1, a1.trans e⟩

theorem UNLOCK_node_abs (e : abs s = ⟨v, n, h, len, t⟩) {a : Nat} {x : α} {w : Ptr}
    (hv : v a = some (x, w)) :
    ∃ s1, UNLOCK (.node (some a)) s = .ok s1 ∧ abs s1 = ⟨v, n, h, len, t⟩ := by
  obtain ⟨s1, h1, a1⟩ := UNLOCK_node_ok (s := s) (a := a) (x := x) (w := w)
    (by rw [abs_v e]; exact hv)
  exact ⟨s1, h1, a1.trans e⟩

theorem LOCK_list_abs (e : abs s = ⟨v, n, h, len, t⟩) (lt : locktype) :
    ∃ s1, LOCK lt .list s = .ok s1 ∧ abs s1 = ⟨v, n, h, len, t⟩ :=
  ⟨_, rfl, e⟩

theorem UNLOCK_list_abs (e : abs s = ⟨v, n, h, len, t⟩) :
    ∃ s1, UNLOCK .list s = .ok s1 ∧ abs s1 = ⟨v, n, h, len, t⟩ :=
  ⟨_, rfl, e⟩

theorem set_hd_abs (e : abs s = ⟨v, n, h, len, t⟩) (p : Ptr) :
    abs (set_hd s p) = ⟨v, n, p, len, t⟩ := by
  rw [abs_set_hd, abs_v e, abs_size e, abs_len e, abs_torn e]

theorem set_len_abs (e : abs s = ⟨v, n, h, len, t⟩) (k : Int) :
    abs (set_len s k) = ⟨v, n, h, k, t⟩ := by
  rw [abs_set_len, abs_v e, abs_size e, abs_hd e, abs_torn e]

theorem val_teardown_abs (e : abs s = ⟨v, n, h, len, t⟩) (x : α) :
    abs (val_teardown s x) = ⟨v, n, h, len, t ++ [x]⟩ := by
  rw [abs_val_teardown, abs_v e, abs_size e, abs_hd e, abs_len e, abs_torn e]

theorem new_node_abs (e : abs s = ⟨v, n, h, len, t⟩) (val : α) :
    ∃ s1, ll_new_node s val = (some n, s1) ∧
      abs s1 = ⟨Function.update v n (some (val, none)), n + 1, h, len, t⟩ := by
  obtain ⟨s1, h1, a1⟩ := new_node_ok s val
  refine ⟨s1, ?_, ?_⟩
  · rw [h1, abs_size e]
  · rw [a1, e, abs_size e, abs_hd e, abs_len e, abs_torn e]

theorem fresh_abs (e : abs s = ⟨v, n, h, len, t⟩) : v n = none := by
  have := view_fresh s
  rw [abs_v e, abs_size e] at this
  exact this

theorem insert_finish_abs (e : abs s = ⟨v, n, h, len, t⟩) :
    ∃ s1, insert_finish s = .ok (len + 1, s1) ∧ abs s1 = ⟨v, n, h, len + 1, t⟩ := by
  obtain ⟨s1, h1, a1⟩ := LOCK_list_abs e .l_write
  obtain ⟨s2, h2, a2⟩ := UNLOCK_list_abs (set_len_abs a1 (len + 1))
  refine ⟨s2, ?_, a2⟩
  have hl1 : s1.list.len = len := abs_len a1
  have hl2 : s2.list.len = len + 1 := abs_len a2
  simp only [insert_finish, h1, hl1, h2, hl2]

theorem select_abs_hit (e : abs s = ⟨v, n, h, len, t⟩) {l : List (Nat × α)}
    (hh : h = first l none) (hl : Linked v l none) (junk : Ptr) (k : Nat)
    (hk : k = 0 ∨ k < l.length) (lt : locktype) :
    ∃ s1, ll_select_n s junk ((k : Int) + 1) lt = .ok (0, first (l.drop k) none, s1) ∧
      abs s1 = ⟨v, n, h, len, t⟩ := by
  have hl2 : Linked (view s.cells) l none := by rw [abs_v e]; exact hl
  obtain ⟨s1, h1, a1⟩ := select_loop_hit lt k s l hl2 hk
  refine ⟨s1, ?_, a1.trans e⟩
  rw [ll_select_n_succ, abs_hd e]
  show select_loop lt k h s = _
  rw [hh]
  exact h1

theorem select_abs_miss (e : abs s = ⟨v, n, h, len, t⟩) {l : List (Nat × α)}
    (hh : h = first l none) (hl : Linked v l none) (junk : Ptr) (k : Nat)
    (hk1 : 1 ≤ k) (hk : l.length ≤ k) (lt : locktype) :
    ∃ nd s1, ll_select_n s junk ((k : Int) + 1) lt = .ok (-1, nd, s1) ∧
      abs s1 = ⟨v, n, h, len, t⟩ := by
  have hl2 : Linked (view s.cells) l none := by rw [abs_v e]; exact hl
  obtain ⟨nd, s1, h1, a1⟩ := select_loop_miss lt k s l hl2 hk1 hk
  refine ⟨nd, s1, ?_, a1.trans e⟩
  rw [ll_select_n_succ, abs_hd e]
  show select_loop lt k h s = _
  rw [hh]
  exact h1

end Steps

/-! ## ll_insert_n, case by case -/

section Insert

variable {s : State α} {v : Nat → Option (α × Ptr)} {n : Nat} {h : Ptr} {len : Int}
  {t : List α}

theorem insert_n_zero (e : abs s = ⟨v, n, h, len, t⟩)
    (hhd : h = none ∨ ∃ a x w, h = some a ∧ v a = some (x, w)) (val : α) (junk : Ptr) :
    ∃ s1, ll_insert_n s val 0 junk = .ok (len + 1, s1) ∧
      abs s1 = ⟨Function.update v n (some (val, h)), n + 1, some n, len + 1, t⟩ := by
  obtain ⟨s2, h2, a2⟩ := new_node_abs e val
  obtain ⟨s3, h3, a3⟩ := set_nxt_abs a2 (a := n) (x := val) (w := none) (by simp) h
  simp only [Function.update_idem] at a3
  have hg : get_nxt s3 (some n) = .ok h := get_nxt_abs a3 (a := n) (x := val) (by simp)
  have hhd2 : s2.list.hd = h := abs_hd a2
  have hfin : ∀ s4 : State α, abs s4 = ⟨Function.update v n (some (val, h)), n + 1, h, len, t⟩ →
      ∃ s1, ((match LOCK .l_write .list s4 with
        | .error e => .error e
        | .ok s5 =>
          match UNLOCK .list (set_hd s5 (some n)) with
          | .error e => .error e
          | .ok s6 => insert_finish s6) : Except Crash (Int × State α)) = .ok (len + 1, s1) ∧
        abs s1 = ⟨Function.update v n (some (val, h)), n + 1, some n, len + 1, t⟩ := by
    intro s4 a4
    obtain ⟨s5, h5, a5⟩ := LOCK_list_abs a4 .l_write
    obtain ⟨s6, h6, a6⟩ := UNLOCK_list_abs (set_hd_abs a5 (some n))
    obtain ⟨s7, h7, a7⟩ := insert_finish_abs a6
    exact ⟨s7, by simp only [h5, h6, h7], a7⟩
  unfold ll_insert_n
  rw [ll_select_n_zero]
  simp only [ne_eq, not_true_eq_false, if_false, if_true, h2, hhd2, h3, hg]
  rcases hhd with hnone | ⟨a, x, w, hsome, hva⟩
  · subst hnone
    simp only [not_true_eq_false, if_false]
    exact hfin s3 a3
  · subst hsome
    have hne : a ≠ n := by
      intro e2
      rw [e2, fresh_abs e] at hva
      simp at hva
    obtain ⟨s4, h4, a4⟩ := UNLOCK_node_abs a3 (a := a) (x := x) (w := w)
      (by simp only [Function.update_noteq hne]; exact hva)
    simp only [reduceCtorEq, not_false_eq_true, if_true, h4]
    exact hfin s4 a4

theorem insert_n_after (e : abs s = ⟨v, n, h, len, t⟩) {l1 l2 : List (Nat × α)} {a : Nat}
    {x : α} (hh : h = first (l1 ++ (a, x) :: l2) none)
    (hl : Linked v (l1 ++ (a, x) :: l2) none) (hlen : 0 < len) (val : α) (junk : Ptr) :
    ∃ s1, ll_insert_n s val ((l1.length : Int) + 1) junk = .ok (len + 1, s1) ∧
      abs s1 = ⟨Function.update (Function.update v n (some (val, first l2 none))) a
        (some (x, some n)), n + 1, h, len + 1, t⟩ := by
  obtain ⟨s1, h1, a1⟩ := select_abs_hit e hh hl junk l1.length
    (Or.inr (by simp)) .l_write
  rw [List.drop_left] at h1
  replace h1 : ll_select_n s junk ((l1.length : Int) + 1) .l_write = .ok (0, some a, s1) := h1
  have hva : v a = some (x, first l2 none) := (Linked_append.1 hl).2.1
  have hne : a ≠ n := by
    intro e2
    rw [e2, fresh_abs e] at hva
    simp at hva
  obtain ⟨s2, h2, a2⟩ := new_node_abs a1 val
  have hg : get_nxt s2 (some a) = .ok (first l2 none) :=
    get_nxt_abs a2 (a := a) (x := x) (by simp only [Function.update_noteq hne]; exact hva)
  obtain ⟨s3, h3, a3⟩ := set_nxt_abs a2 (a := n) (x := val) (w := none) (by simp)
    (first l2 none)
  simp only [Function.update_idem] at a3
  obtain ⟨s4, h4, a4⟩ := set_nxt_abs a3 (a := a) (x := x) (w := first l2 none)
    (by simp only [Function.update_noteq hne]; exact hva) (some n)
  obtain ⟨s5, h5, a5⟩ := UNLOCK_node_abs a4 (a := a) (x := x) (w := some n) (by simp)
  obtain ⟨s6, h6, a6⟩ := insert_finish_abs a5
  refine ⟨s6, ?_, a6⟩
  have hn0 : ¬ ((l1.length : Int) + 1 = 0) := by omega
  have hlen2 : s2.list.len > 0 := by rw [abs_len a2]; exact hlen
  unfold ll_insert_n
  rw [h1]
  simp only [ne_eq, not_true_eq_false, if_false, h2, hn0, hlen2, if_true, hg, h3, h4, h5, h6]

theorem insert_n_empty_one (e : abs s = ⟨v, n, none, len, t⟩) (hlen : len ≤ 0) (val : α)
    (junk : Ptr) : ll_insert_n s val 1 junk = .error .fault := by
  obtain ⟨s1, h1, a1⟩ := select_abs_hit e (show (none : Ptr) = first ([] : List (Nat × α)) none from rfl)
    (show Linked v [] none from trivial) junk 0 (Or.inl rfl) .l_write
  obtain ⟨s2, h2, a2⟩ := new_node_abs a1 val
  have hlen2 : ¬ (s2.list.len > 0) := by rw [abs_len a2]; exact not_lt.2 hlen
  unfold ll_insert_n
  have h1b : ll_select_n s junk 1 .l_write = .ok (0, none, s1) := by
    simpa [first] using h1
  rw [h1b]
  simp only [ne_eq, not_true_eq_false, if_false, h2, one_ne_zero, hlen2, UNLOCK_null]

theorem insert_n_miss (e : abs s = ⟨v, n, h, len, t⟩) {l : List (Nat × α)}
    (hh : h = first l none) (hl : Linked v l none) (val : α) (junk : Ptr) (k : Nat)
    (hk1 : 1 ≤ k) (hk : l.length ≤ k) :
    ∃ s1, ll_insert_n s val ((k : Int) + 1) junk = .ok (-1, s1) ∧
      abs s1 = ⟨v, n, h, len, t⟩ := by
  obtain ⟨nd, s1, h1, a1⟩ := select_abs_miss e hh hl junk k hk1 hk .l_write
  refine ⟨s1, ?_, a1⟩
  unfold ll_insert_n
  rw [h1]
  simp

end Insert

/-! ## ll_remove_n, case by case -/

section Remove

variable {s : State α} {v : Nat → Option (α × Ptr)} {n : Nat} {h : Ptr} {len : Int}
  {t : List α}

theorem remove_finish_ok (e : abs s = ⟨v, n, h, len, t⟩) {j : Nat} {u : α} {g : Ptr}
    (hj : v j = some (u, g)) {b : Nat} {y : α} {z : Ptr} (hb : v b = some (y, z)) :
    ∃ s1, remove_finish s (some j) (some b) = .ok (len - 1, s1) ∧
      abs s1 = ⟨Function.update v b none, n, h, len - 1, t ++ [y]⟩ := by
  obtain ⟨s1, h1, a1⟩ := UNLOCK_node_abs e hj
  obtain ⟨s2, h2, a2⟩ := UNLOCK_list_abs (set_len_abs a1 (len - 1))
  have hg : get_val s2 (some b) = .ok y := get_val_abs a2 hb
  obtain ⟨s3, h3, a3⟩ := free_abs (val_teardown_abs a2 y) hb
  refine ⟨s3, ?_, a3⟩
  have hl1 : s1.list.len = len := abs_len a1
  have hl3 : s3.list.len = len - 1 := abs_len a3
  simp only [remove_finish, h1, hl1, h2, hg, h3, hl3]

theorem remove_finish_null_tmp (e : abs s = ⟨v, n, h, len, t⟩) {j : Nat} {u : α} {g : Ptr}
    (hj : v j = some (u, g)) : remove_finish s (some j) none = .error .fault := by
  obtain ⟨s1, h1, a1⟩ := UNLOCK_node_abs e hj
  obtain ⟨s2, h2, a2⟩ := UNLOCK_list_abs (set_len_abs a1 (len - 1))
  have hl1 : s1.list.len = len := abs_len a1
  simp only [remove_finish, h1, hl1, h2, get_val_null]

theorem remove_finish_junk (e : abs s = ⟨v, n, h, len, t⟩) {junk : Ptr}
    (hj : junk = none ∨ ∃ j, junk = some j ∧ v j = none) (tmp : Ptr) :
    remove_finish s junk tmp = .error .fault := by
  rcases hj with rfl | ⟨j, rfl, hj⟩
  · simp only [remove_finish, UNLOCK_null]
  · simp only [remove_finish, UNLOCK_abs_dead e hj]

theorem remove_n_neg (s : State α) {k : Int} (hk : k < 0) (junk : Ptr) :
    ll_remove_n s k junk = .ok (-1, s) := by
  simp [ll_remove_n, ll_select_n_neg s junk hk]

theorem remove_n_head (e : abs s = ⟨v, n, some a, len, t⟩) {x : α} {w : Ptr}
    (hva : v a = some (x, w)) (hlen : 0 < len) {j : Nat} {u : α} {g : Ptr}
    (hj : v j = some (u, g)) :
    ∃ s1, ll_remove_n s 0 (some j) = .ok (len - 1, s1) ∧
      abs s1 = ⟨Function.update v a none, n, w, len - 1, t ++ [x]⟩ := by
  obtain ⟨s2, h2, a2⟩ := LOCK_list_abs e .l_write
  have hg : get_nxt s2 (some a) = .ok w := get_nxt_abs a2 hva
  obtain ⟨s3, h3, a3⟩ := remove_finish_ok (set_hd_abs a2 w) hj hva
  refine ⟨s3, ?_, a3⟩
  have hl : s.list.len > 0 := by rw [abs_len e]; exact hlen
  have hhd : s.list.hd = some a := abs_hd e
  unfold ll_remove_n
  rw [ll_select_n_zero]
  simp only [ne_eq, not_true_eq_false, if_false, hl, and_self, if_true, h2, hhd, hg, h3]

theorem remove_n_head_junk (e : abs s = ⟨v, n, some a, len, t⟩) {x : α} {w : Ptr}
    (hva : v a = some (x, w)) (hlen : 0 < len) {junk : Ptr}
    (hj : junk = none ∨ ∃ j, junk = some j ∧ v j = none) :
    ll_remove_n s 0 junk = .error .fault := by
  obtain ⟨s2, h2, a2⟩ := LOCK_list_abs e .l_write
  have hg : get_nxt s2 (some a) = .ok w := get_nxt_abs a2 hva
  have h3 := remove_finish_junk (set_hd_abs a2 w) hj (some a)
  have hl : s.list.len > 0 := by rw [abs_len e]; exact hlen
  have hhd : s.list.hd = some a := abs_hd e
  unfold ll_remove_n
  rw [ll_select_n_zero]
  simp only [ne_eq, not_true_eq_false, if_false, hl, and_self, if_true, h2, hhd, hg, h3]

theorem remove_n_zero_empty (e : abs s = ⟨v, n, h, len, t⟩) (hlen : len ≤ 0) {junk : Ptr}
    (hj : junk = none ∨ ∃ j, junk = some j ∧ v j = none) :
    ll_remove_n s 0 junk = .error .fault := by
  have hl : ¬ (s.list.len > 0) := by rw [abs_len e]; exact not_lt.2 hlen
  unfold ll_remove_n
  rw [ll_select_n_zero]
  rcases hj with rfl | ⟨j, rfl, hj⟩
  · simp only [ne_eq, not_true_eq_false, if_false, hl, and_false, get_nxt_null]
  · simp only [ne_eq, not_true_eq_false, if_false, hl, and_false, get_nxt_abs_dead e hj]

theorem remove_n_after (e : abs s = ⟨v, n, h, len, t⟩) {l1 l2 : List (Nat × α)} {a b : Nat}
    {x y : α} (hh : h = first (l1 ++ (a, x) :: (b, y) :: l2) none)
    (hl : Linked v (l1 ++ (a, x) :: (b, y) :: l2) none) (junk : Ptr) :
    ∃ s1, ll_remove_n s ((l1.length : Int) + 1) junk = .ok (len - 1, s1) ∧
      abs s1 = ⟨Function.update (Function.update v a (some (x, first l2 none))) b none,
        n, h, len - 1, t ++ [y]⟩ := by
  obtain ⟨s1, h1, a1⟩ := select_abs_hit e hh hl junk l1.length (Or.inr (by simp)) .l_write
  rw [List.drop_left] at h1
  replace h1 : ll_select_n s junk ((l1.length : Int) + 1) .l_write = .ok (0, some a, s1) := h1
  have hva : v a = some (x, some b) := (Linked_append.1 hl).2.1
  have hvb : v b = some (y, first l2 none) := (Linked_append.1 hl).2.2.1
  have hne : b ≠ a := by
    have hnd := Linked_nodup hl
    simp only [List.map_append, List.map_cons] at hnd
    have h2 := (List.nodup_append.1 hnd).2.1
    rw [List.nodup_cons] at h2
    intro e2
    exact h2.1 (by rw [e2]; exact List.mem_cons_self _ _)
  have hg1 : get_nxt s1 (some a) = .ok (some b) := get_nxt_abs a1 hva
  have hg2 : get_nxt s1 (some b) = .ok (first l2 none) := get_nxt_abs a1 hvb
  obtain ⟨s2, h2, a2⟩ := set_nxt_abs a1 hva (first l2 none)
  obtain ⟨s3, h3, a3⟩ := LOCK_list_abs a2 .l_write
  obtain ⟨s4, h4, a4⟩ := remove_finish_ok a3 (j := a) (u := x) (g := first l2 none)
    (by simp) (b := b) (y := y) (z := first l2 none)
    (by simp only [Function.update_noteq hne]; exact hvb)
  refine ⟨s4, ?_, a4⟩
  have hn0 : ¬ ((l1.length : Int) + 1 = 0) := by omega
  unfold ll_remove_n
  rw [h1]
  simp only [ne_eq, not_true_eq_false, if_false, hn0, false_and, hg1, reduceCtorEq, hg2, h2, h3,
    h4]

theorem remove_n_last (e : abs s = ⟨v, n, h, len, t⟩) {l1 : List (Nat × α)} {a : Nat} {x : α}
    (hh : h = first (l1 ++ [(a, x)]) none) (hl : Linked v (l1 ++ [(a, x)]) none)
    (junk : Ptr) : ll_remove_n s ((l1.length : Int) + 1) junk = .error .fault := by
  obtain ⟨s1, h1, a1⟩ := select_abs_hit e hh hl junk l1.length (Or.inr (by simp)) .l_write
  rw [List.drop_left] at h1
  replace h1 : ll_select_n s junk ((l1.length : Int) + 1) .l_write = .ok (0, some a, s1) := h1
  have hva : v a = some (x, none) := (Linked_append.1 hl).2.1
  have hg1 : get_nxt s1 (some a) = .ok none := get_nxt_abs a1 hva
  obtain ⟨s2, h2, a2⟩ := set_nxt_abs a1 hva none
  obtain ⟨s3, h3, a3⟩ := LOCK_list_abs a2 .l_write
  have h4 := remove_finish_null_tmp a3 (j := a) (u := x) (g := none) (by simp)
  have hn0 : ¬ ((l1.length : Int) + 1 = 0) := by omega
  unfold ll_remove_n
  rw [h1]
  simp only [ne_eq, not_true_eq_false, if_false, hn0, false_and, hg1, if_true, h2, h3, h4]

theorem remove_n_empty_one (e : abs s = ⟨v, n, none, len, t⟩) (junk : Ptr) :
    ll_remove_n s 1 junk = .error .fault := by
  obtain ⟨s1, h1, a1⟩ := select_abs_hit e (show (none : Ptr) = first ([] : List (Nat × α)) none from rfl)
    (show Linked v [] none from trivial) junk 0 (Or.inl rfl) .l_write
  have h1b : ll_select_n s junk 1 .l_write = .ok (0, none, s1) := by
    simpa [first] using h1
  unfold ll_remove_n
  rw [h1b]
  simp only [ne_eq, not_true_eq_false, if_false, one_ne_zero, false_and, get_nxt_null]

theorem remove_n_miss (e : abs s = ⟨v, n, h, len, t⟩) {l : List (Nat × α)}
    (hh : h = first l none) (hl : Linked v l none) (junk : Ptr) (k : Nat)
    (hk1 : 1 ≤ k) (hk : l.length ≤ k) :
    ∃ s1, ll_remove_n s ((k : Int) + 1) junk = .ok (-1, s1) ∧ abs s1 = ⟨v, n, h, len, t⟩ := by
  obtain ⟨nd, s1, h1, a1⟩ := select_abs_miss e hh hl junk k hk1 hk .l_write
  refine ⟨s1, ?_, a1⟩
  unfold ll_remove_n
  rw [h1]
  simp

end Remove

/-! ## ll_get_n, case by case -/

section Get

variable {s : State α} {v : Nat → Option (α × Ptr)} {n : Nat} {h : Ptr} {len : Int}
  {t : List α}

theorem get_n_hit (e : abs s = ⟨v, n, h, len, t⟩) {l1 l2 : List (Nat × α)} {a : Nat} {x : α}
    (hh : h = first (l1 ++ (a, x) :: l2) none) (hl : Linked v (l1 ++ (a, x) :: l2) none)
    (junk : Ptr) :
    ∃ s1, ll_get_n s (l1.length : Int) junk = .ok (some x, s1) ∧
      abs s1 = ⟨v, n, h, len, t⟩ := by
  obtain ⟨s1, h1, a1⟩ := select_abs_hit e hh hl junk l1.length (Or.inr (by simp)) .l_read
  rw [List.drop_left] at h1
  replace h1 : ll_select_n s junk ((l1.length : Int) + 1) .l_read = .ok (0, some a, s1) := h1
  have hva : v a = some (x, first l2 none) := (Linked_append.1 hl).2.1
  obtain ⟨s2, h2, a2⟩ := UNLOCK_node_abs a1 hva
  have hg : get_val s2 (some a) = .ok x := get_val_abs a2 hva
  refine ⟨s2, ?_, a2⟩
  unfold ll_get_n
  rw [h1]
  simp only [ne_eq, not_true_eq_false, if_false, h2, hg]

theorem get_n_miss (e : abs s = ⟨v, n, h, len, t⟩) {l : List (Nat × α)}
    (hh : h = first l none) (hl : Linked v l none) (junk : Ptr) (k : Nat)
    (hk1 : 1 ≤ k) (hk : l.length ≤ k) :
    ∃ s1, ll_get_n s (k : Int) junk = .ok (none, s1) ∧ abs s1 = ⟨v, n, h, len, t⟩ := by
  obtain ⟨nd, s1, h1, a1⟩ := select_abs_miss e hh hl junk k hk1 hk .l_read
  refine ⟨s1, ?_, a1⟩
  unfold ll_get_n
  rw [h1]
  simp

theorem get_n_empty_zero (e : abs s = ⟨v, n, none, len, t⟩) (junk : Ptr) :
    ll_get_n s 0 junk = .error .fault := by
  obtain ⟨s1, h1, a1⟩ := select_abs_hit e (show (none : Ptr) = first ([] : List (Nat × α)) none from rfl)
    (show Linked v [] none from trivial) junk 0 (Or.inl rfl) .l_read
  have h1b : ll_select_n s junk (0 + 1) .l_read = .ok (0, none, s1) := by
    simpa [first] using h1
  unfold ll_get_n
  rw [h1b]
  simp only [ne_eq, not_true_eq_false, if_false, UNLOCK_null]

theorem get_n_neg (s : State α) {k : Int} (hk : k < -1) (junk : Ptr) :
    ll_get_n s k junk = .ok (none, s) := by
  have hk2 : k + 1 < 0 := by omega
  simp [ll_get_n, ll_select_n_neg s junk hk2]

theorem get_n_minus_one_null (s : State α) : ll_get_n s (-1) none = .error .fault := by
  have h0 : ll_select_n s none (-1 + 1) .l_read = .ok (0, none, s) := ll_select_n_zero s none _
  unfold ll_get_n
  rw [h0]
  simp only [ne_eq, not_true_eq_false, if_false, UNLOCK_null]

theorem get_n_minus_one_live (e : abs s = ⟨v, n, h, len, t⟩) {j : Nat} {u : α} {g : Ptr}
    (hj : v j = some (u, g)) :
    ∃ s1, ll_get_n s (-1) (some j) = .ok (some u, s1) := by
  have h0 : ll_select_n s (some j) (-1 + 1) .l_read = .ok (0, some j, s) :=
    ll_select_n_zero s (some j) _
  obtain ⟨s2, h2, a2⟩ := UNLOCK_node_abs e hj
  have hg : get_val s2 (some j) = .ok u := get_val_abs a2 hj
  refine ⟨s2, ?_⟩
  unfold ll_get_n
  rw [h0]
  simp only [ne_eq, not_true_eq_false, if_false, h2, hg]

theorem get_n_minus_one_dead (e : abs s = ⟨v, n, h, len, t⟩) {j : Nat} (hj : v j = none) :
    ll_get_n s (-1) (some j) = .error .fault := by
  have h0 : ll_select_n s (some j) (-1 + 1) .l_read = .ok (0, some j, s) :=
    ll_select_n_zero s (some j) _
  unfold ll_get_n
  rw [h0]
  simp only [ne_eq, not_true_eq_false, if_false, UNLOCK_abs_dead e hj]

end Get

/-! ## ll_remove_search, case by case -/

section Search

variable {s : State α} {v : Nat → Option (α × Ptr)} {n : Nat} {h : Ptr} {len : Int}
  {t : List α}

theorem lastOf_snoc (l : List (Nat × α)) (b : Nat) (y : α) (p : Ptr) :
    lastOf (l ++ [(b, y)]) p = some b := by
  induction l generalizing p with
  | nil => rfl
  | cons q l ih =>
    obtain ⟨c, z⟩ := q
    exact ih (some c)

theorem search_loop_found (e : abs s = ⟨v, n, h, len, t⟩) (cond : α → Bool) {a : Nat} {x : α}
    {l2 : List (Nat × α)} (hx : cond x = true) :
    ∀ (l1 : List (Nat × α)) (last : Ptr) (fuel : Nat),
      Linked v (l1 ++ (a, x) :: l2) none → (∀ p ∈ l1, cond p.2 = false) →
      l1.length < fuel →
      search_loop cond s fuel last (first (l1 ++ (a, x) :: l2) none) =
        .ok (lastOf l1 last, some a) := by
  intro l1
  induction l1 with
  | nil =>
    intro last fuel hl _ hf
    obtain ⟨k, rfl⟩ : ∃ k, fuel = k + 1 := ⟨fuel - 1, by simp at hf; omega⟩
    have hg : get_val s (some a) = .ok x := get_val_abs e hl.1
    show search_loop cond s (k + 1) last (some a) = _
    simp only [search_loop, reduceCtorEq, if_false, hg, hx, if_true, lastOf]
  | cons q l1 ih =>
    obtain ⟨b, y⟩ := q
    intro last fuel hl hc hf
    obtain ⟨k, rfl⟩ : ∃ k, fuel = k + 1 := ⟨fuel - 1, by simp at hf; omega⟩
    have hvb : v b = some (y, first (l1 ++ (a, x) :: l2) none) := hl.1
    have hg : get_val s (some b) = .ok y := get_val_abs e hvb
    have hn : get_nxt s (some b) = .ok (first (l1 ++ (a, x) :: l2) none) := get_nxt_abs e hvb
    have hy : cond y = false := hc (b, y) (List.mem_cons_self _ _)
    have hrec := ih (some b) k hl.2 (fun p hp => hc p (List.mem_cons_of_mem _ hp))
      (by simp at hf; omega)
    show search_loop cond s (k + 1) last (some b) = _
    simp only [search_loop, reduceCtorEq, if_false, hg, hy, Bool.false_eq_true, hn, hrec, lastOf]

theorem search_loop_none (e : abs s = ⟨v, n, h, len, t⟩) (cond : α → Bool) :
    ∀ (l : List (Nat × α)) (last : Ptr) (fuel : Nat),
      Linked v l none → (∀ p ∈ l, cond p.2 = false) → l.length < fuel →
      search_loop cond s fuel last (first l none) = .ok (lastOf l last, none) := by
  intro l
  induction l with
  | nil =>
    intro last fuel _ _ hf
    obtain ⟨k, rfl⟩ : ∃ k, fuel = k + 1 := ⟨fuel - 1, by simp at hf; omega⟩
    simp [search_loop, first, lastOf]
  | cons q l ih =>
    obtain ⟨b, y⟩ := q
    intro last fuel hl hc hf
    obtain ⟨k, rfl⟩ : ∃ k, fuel = k + 1 := ⟨fuel - 1, by simp at hf; omega⟩
    have hvb : v b = some (y, first l none) := hl.1
    have hg : get_val s (some b) = .ok y := get_val_abs e hvb
    have hn : get_nxt s (some b) = .ok (first l none) := get_nxt_abs e hvb
    have hy : cond y = false := hc (b, y) (List.mem_cons_self _ _)
    have hrec := ih (some b) k hl.2 (fun p hp => hc p (List.mem_cons_of_mem _ hp))
      (by simp at hf; omega)
    show search_loop cond s (k + 1) last (some b) = _
    simp only [search_loop, reduceCtorEq, if_false, hg, hy, Bool.false_eq_true, hn, hrec, lastOf]

theorem fuel_enough (e : abs s = ⟨v, n, h, len, t⟩) {l : List (Nat × α)}
    (hl : Linked v l none) : l.length < s.cells.length + 1 := by
  have : Linked (view s.cells) l none := by rw [abs_v e]; exact hl
  have := Linked_length_le this
  omega

theorem search_finish_ok (e : abs s = ⟨v, n, h, len, t⟩) {a : Nat} {x : α} {w : Ptr}
    (hva : v a = some (x, w)) :
    ∃ s1, ((match get_val s (some a) with
      | .error e => .error e
      | .ok v =>
        match free (val_teardown s v) (some a) with
        | .error e => .error e
        | .ok s4 =>
          match LOCK .l_write .list s4 with
          | .error e => .error e
          | .ok s5 =>
            match UNLOCK .list (set_len s5 (s5.list.len - 1)) with
            | .error e => .error e
            | .ok s6 => .ok (s6.list.len, s6)) : Except Crash (Int × State α)) =
        .ok (len - 1, s1) ∧
      abs s1 = ⟨Function.update v a none, n, h, len - 1, t ++ [x]⟩ := by
  have hg : get_val s (some a) = .ok x := get_val_abs e hva
  obtain ⟨s4, h4, a4⟩ := free_abs (val_teardown_abs e x) hva
  obtain ⟨s5, h5, a5⟩ := LOCK_list_abs a4 .l_write
  obtain ⟨s6, h6, a6⟩ := UNLOCK_list_abs (set_len_abs a5 (len - 1))
  have hl5 : s5.list.len = len := abs_len a5
  have hl6 : s6.list.len = len - 1 := abs_len a6
  exact ⟨s6, by simp only [hg, h4, h5, hl5, h6, hl6], a6⟩

theorem remove_search_none (e : abs s = ⟨v, n, h, len, t⟩) {l : List (Nat × α)}
    (hh : h = first l none) (hl : Linked v l none) (cond : α → Bool)
    (hc : ∀ p ∈ l, cond p.2 = false) : ll_remove_search s cond = .ok (-1, s) := by
  have hs := search_loop_none e cond l none _ hl hc (fuel_enough e hl)
  have hhd : s.list.hd = first l none := (abs_hd e).trans hh
  unfold ll_remove_search
  rw [hhd, hs]
  simp

theorem remove_search_head (e : abs s = ⟨v, n, h, len, t⟩) {a : Nat} {x : α}
    {l2 : List (Nat × α)} (hh : h = some a) (hl : Linked v ((a, x) :: l2) none)
    (cond : α → Bool) (hx : cond x = true) :
    ∃ s1, ll_remove_search s cond = .ok (len - 1, s1) ∧
      abs s1 = ⟨Function.update v a none, n, first l2 none, len - 1, t ++ [x]⟩ := by
  have hs := search_loop_found e cond hx [] none (s.cells.length + 1) hl (by simp)
    (Nat.succ_pos _)
  have hhd : s.list.hd = some a := (abs_hd e).trans hh
  obtain ⟨s1, h1, a1⟩ := LOCK_list_abs e .l_write
  have hn : get_nxt s1 (some a) = .ok (first l2 none) := get_nxt_abs a1 hl.1
  obtain ⟨s2, h2, a2⟩ := UNLOCK_list_abs (set_hd_abs a1 (first l2 none))
  obtain ⟨s3, h3, a3⟩ := search_finish_ok a2 (a := a) (x := x) (w := first l2 none) hl.1
  refine ⟨s3, ?_, a3⟩
  have hs2 : search_loop cond s (s.cells.length + 1) none (some a) = .ok (none, some a) := hs
  unfold ll_remove_search
  rw [hhd, hs2]
  simp only [reduceCtorEq, if_false, search_unlink, hhd, if_true, h1, hn, h2]
  exact h3

theorem remove_search_after (e : abs s = ⟨v, n, h, len, t⟩) {a b : Nat} {x y : α}
    {l1 l2 : List (Nat × α)} (hh : h = first (l1 ++ (b, y) :: (a, x) :: l2) none)
    (hl : Linked v (l1 ++ (b, y) :: (a, x) :: l2) none) (cond : α → Bool)
    (hc : ∀ p ∈ l1 ++ [(b, y)], cond p.2 = false) (hx : cond x = true) :
    ∃ s1, ll_remove_search s cond = .ok (len - 1, s1) ∧
      abs s1 = ⟨Function.update (Function.update v b (some (y, first l2 none))) a none,
        n, h, len - 1, t ++ [x]⟩ := by
  have hl2 : Linked v ((l1 ++ [(b, y)]) ++ (a, x) :: l2) none := by
    simpa using hl
  have hfuel : (l1 ++ [(b, y)]).length < s.cells.length + 1 := by
    have := fuel_enough e hl2
    simp only [List.length_append, List.length_cons] at this ⊢
    omega
  have hs := search_loop_found e cond hx (l1 ++ [(b, y)]) none _ hl2 hc hfuel
  rw [lastOf_snoc] at hs
  have hhd : s.list.hd = first ((l1 ++ [(b, y)]) ++ (a, x) :: l2) none := by
    rw [abs_hd e]
    show h = _
    rw [hh]
    simp
  have hvb : v b = some (y, some a) := (Linked_append.1 hl).2.1
  have hva : v a = some (x, first l2 none) := (Linked_append.1 hl).2.2.1
  have hnd := Linked_nodup hl2
  have hne_hd : ¬ (some a = first ((l1 ++ [(b, y)]) ++ (a, x) :: l2) none) := by
    intro e2
    rw [first_append] at e2
    simp only [List.map_append, List.map_cons] at hnd
    have h3 := (List.nodup_append.1 hnd).2.2
    cases l1 with
    | nil =>
      simp only [List.nil_append, first, Option.some.injEq] at e2
      exact h3 (a := a) (by simp [e2]) (by simp)
    | cons q l1 =>
      obtain ⟨c, z⟩ := q
      simp only [List.cons_append, first, Option.some.injEq] at e2
      exact h3 (a := a) (by simp [e2]) (by simp)
  have hab : a ≠ b := by
    intro e2
    simp only [List.map_append, List.map_cons] at hnd
    have h3 := (List.nodup_append.1 hnd).2.2
    exact h3 (a := a) (by simp [e2]) (by simp)
  obtain ⟨s1, h1, a1⟩ := LOCK_node_abs e hvb .l_write
  have hn : get_nxt s1 (some a) = .ok (first l2 none) := get_nxt_abs a1 hva
  obtain ⟨s2, h2, a2⟩ := set_nxt_abs a1 hvb (first l2 none)
  obtain ⟨s3, h3, a3⟩ := UNLOCK_node_abs a2 (a := b) (x := y) (w := first l2 none) (by simp)
  obtain ⟨s4, h4, a4⟩ := search_finish_ok a3 (a := a) (x := x) (w := first l2 none)
    (by simp only [Function.update_noteq hab]; exact hva)
  refine ⟨s4, ?_, a4⟩
  unfold ll_remove_search
  rw [hhd, hs]
  simp only [reduceCtorEq, if_false, search_unlink, hhd, hne_hd, h1, hn, h2, h3]
  exact h4

end Search

/-! ## Splicing a linked sequence -/

section Splice

variable {v : Nat → Option (α × Ptr)}

theorem Linked_update {l : List (Nat × α)} {q : Ptr} (hl : Linked v l q) {a : Nat}
    (ha : a ∉ l.map Prod.fst) (o : Option (α × Ptr)) : Linked (Function.update v a o) l q := by
  refine Linked_congr (fun p hp => ?_) hl
  have hne : p.1 ≠ a := by
    intro e
    exact ha (by rw [← e]; exact List.mem_map_of_mem _ hp)
  rw [Function.update_noteq hne]

theorem dead_not_mem {l : List (Nat × α)} {q : Ptr} (hl : Linked v l q) {a : Nat}
    (ha : v a = none) : a ∉ l.map Prod.fst :=
  fun hm => Linked_live hl a hm ha

theorem Linked_mid_not_mem {l1 l2 : List (Nat × α)} {a : Nat} {x : α}
    (hl : Linked v (l1 ++ (a, x) :: l2) none) :
    a ∉ l1.map Prod.fst ∧ a ∉ l2.map Prod.fst := by
  have hnd := Linked_nodup hl
  simp only [List.map_append, List.map_cons] at hnd
  obtain ⟨_, h2, h3⟩ := List.nodup_append.1 hnd
  refine ⟨fun hm => h3 hm (List.mem_cons_self _ _), ?_⟩
  exact (List.nodup_cons.1 h2).1

theorem Linked_insert_head {l : List (Nat × α)} (hl : Linked v l none) {n : Nat}
    (hn : v n = none) (val : α) :
    Linked (Function.update v n (some (val, first l none))) ((n, val) :: l) none := by
  refine ⟨by simp, ?_⟩
  exact Linked_update hl (dead_not_mem hl hn) _

theorem Linked_insert_after {l1 l2 : List (Nat × α)} {a : Nat} {x : α}
    (hl : Linked v (l1 ++ (a, x) :: l2) none) {n : Nat} (hn : v n = none) (val : α) :
    Linked (Function.update (Function.update v n (some (val, first l2 none))) a
      (some (x, some n))) (l1 ++ (a, x) :: (n, val) :: l2) none := by
  obtain ⟨ha1, ha2⟩ := Linked_mid_not_mem hl
  have hnm := dead_not_mem hl hn
  simp only [List.map_append, List.map_cons, List.mem_append, List.mem_cons, not_or] at hnm
  obtain ⟨h1, hva, h2⟩ := Linked_append.1 hl
  have hne : n ≠ a := hnm.2.1
  rw [Linked_append]
  refine ⟨?_, ?_, ?_, ?_⟩
  · exact Linked_update (Linked_update h1 hnm.1 _) ha1 _
  · simp [first]
  · show Function.update (Function.update v n (some (val, first l2 none))) a
      (some (x, some n)) n = some (val, first l2 none)
    rw [Function.update_noteq hne]
    simp
  · exact Linked_update (Linked_update h2 hnm.2.2 _) ha2 _

theorem Linked_remove_head {l2 : List (Nat × α)} {a : Nat} {x : α}
    (hl : Linked v ((a, x) :: l2) none) : Linked (Function.update v a none) l2 none := by
  have h := Linked_mid_not_mem (show Linked v ([] ++ (a, x) :: l2) none from hl)
  exact Linked_update hl.2 h.2 _

theorem Linked_remove_after {l1 l2 : List (Nat × α)} {a b : Nat} {x y : α}
    (hl : Linked v (l1 ++ (b, y) :: (a, x) :: l2) none) :
    Linked (Function.update (Function.update v b (some (y, first l2 none))) a none)
      (l1 ++ (b, y) :: l2) none := by
  obtain ⟨hb1, hb2⟩ := Linked_mid_not_mem hl
  have hl2 : Linked v ((l1 ++ [(b, y)]) ++ (a, x) :: l2) none := by simpa using hl
  obtain ⟨ha1, ha2⟩ := Linked_mid_not_mem hl2
  simp only [List.map_append, List.map_cons, List.map_nil, List.mem_append, List.mem_cons,
    List.mem_singleton, List.not_mem_nil, or_false, not_or] at ha1 hb2
  obtain ⟨h1, _, _, h2⟩ := Linked_append.1 hl
  rw [Linked_append]
  refine ⟨?_, ?_, ?_⟩
  · exact Linked_update (Linked_update h1 hb1 _) ha1.1 _
  · show Function.update (Function.update v b (some (y, first l2 none))) a none b =
      some (y, first l2 none)
    rw [Function.update_noteq (Ne.symm ha1.2)]
    simp
  · exact Linked_update (Linked_update h2 hb2.2 _) ha2 _

theorem getElem?_mid {β : Type} (l1 : List β) (b : β) (l2 : List β) :
    (l1 ++ b :: l2)[l1.length]? = some b := by
  induction l1 with
  | nil => simp
  | cons c l1 ih => simpa using ih

theorem split_at {β : Type} (l : List β) (k : Nat) (hk : k < l.length) :
    ∃ l1 b l2, l = l1 ++ b :: l2 ∧ l1.length = k := by
  induction l generalizing k with
  | nil => simp at hk
  | cons c l ih =>
    cases k with
    | zero => exact ⟨[], c, l, rfl, rfl⟩
    | succ k =>
      obtain ⟨l1, b, l2, h1, h2⟩ := ih k (by simpa using hk)
      exact ⟨c :: l1, b, l2, by rw [h1]; rfl, by simp [h2]⟩

end Splice

/-! ## The operations on a well-formed list -/

theorem abs_self (s : State α) :
    abs s = ⟨view s.cells, s.cells.length, s.list.hd, s.list.len, s.torn⟩ := rfl

theorem IsChain_of_abs {s s1 : State α} (h : abs s1 = abs s) (l : List (Nat × α)) :
    IsChain s1 l ↔ IsChain s l := by
  unfold IsChain
  rw [abs_hd h, abs_v h]
  rfl

theorem chain_of_abs {s s1 : State α} (h : abs s1 = abs s) : chain s1 = chain s := by
  apply Option.ext
  intro xs
  simp only [Option.mem_def, chain_eq_some_iff, IsChain_of_abs h]

theorem head_live {s : State α} {l : List (Nat × α)} (hc : IsChain s l) :
    s.list.hd = none ∨ ∃ a x w, s.list.hd = some a ∧ view s.cells a = some (x, w) := by
  cases l with
  | nil => exact Or.inl hc.1
  | cons p l =>
    obtain ⟨a, x⟩ := p
    exact Or.inr ⟨a, x, _, hc.1, hc.2.1⟩

theorem insert_n_chain {s : State α} {l : List (Nat × α)} (hc : IsChain s l)
    (hlen : s.list.len = l.length) (k : Nat) (hk : k ≤ l.length) (val : α) (junk : Ptr) :
    ∃ s1, ll_insert_n s val (k : Int) junk = .ok ((l.length : Int) + 1, s1) ∧
      IsChain s1 (l.take k ++ (s.cells.length, val) :: l.drop k) ∧
      s1.list.len = (l.length : Int) + 1 ∧ s1.torn = s.torn ∧
      ((∀ c, view s.cells c ≠ none → c ∈ l.map Prod.fst) →
        ∀ c, view s1.cells c ≠ none →
          c ∈ (l.take k ++ (s.cells.length, val) :: l.drop k).map Prod.fst) := by
  cases k with
  | zero =>
    obtain ⟨s1, h1, a1⟩ := insert_n_zero (abs_self s) (head_live hc) val junk
    refine ⟨s1, ?_, ⟨?_, ?_⟩, ?_, abs_torn a1, ?_⟩
    · rw [← hlen]
      exact h1
    · exact abs_hd a1
    · rw [abs_v a1]
      have := Linked_insert_head hc.2 (view_fresh s) val
      rw [← hc.1] at this
      simpa using this
    · rw [abs_len a1, hlen]
    · intro hleak c hcl
      rw [abs_v a1] at hcl
      dsimp only at hcl
      simp only [List.take_zero, List.nil_append, List.drop_zero, List.map_cons,
        List.mem_cons]
      by_cases hcn : c = s.cells.length
      · exact Or.inl hcn
      · rw [Function.update_noteq hcn] at hcl
        exact Or.inr (hleak c hcl)
  | succ k =>
    obtain ⟨l1, ⟨a, x⟩, l2, rfl, hl1⟩ := split_at l k (by omega)
    have hpos : 0 < s.list.len := by
      rw [hlen]
      have : 0 < (l1 ++ (a, x) :: l2).length := by simp
      exact_mod_cast this
    obtain ⟨s1, h1, a1⟩ := insert_n_after (abs_self s) hc.1 hc.2 hpos val junk
    have htake : (l1 ++ (a, x) :: l2).take (k + 1) = l1 ++ [(a, x)] := by
      have : l1 ++ (a, x) :: l2 = (l1 ++ [(a, x)]) ++ l2 := by simp
      rw [this]
      exact List.take_left' (by simp [hl1])
    have hdrop : (l1 ++ (a, x) :: l2).drop (k + 1) = l2 := by
      have : l1 ++ (a, x) :: l2 = (l1 ++ [(a, x)]) ++ l2 := by simp
      rw [this]
      exact List.drop_left' (by simp [hl1])
    rw [htake, hdrop]
    have hcast : ((k + 1 : Nat) : Int) = (l1.length : Int) + 1 := by
      rw [hl1]
      push_cast
      rfl
    refine ⟨s1, ?_, ⟨?_, ?_⟩, ?_, abs_torn a1, ?_⟩
    · rw [hcast, ← hlen]
      exact h1
    · rw [abs_hd a1]
      show s.list.hd = _
      rw [hc.1]
      simp only [first_append]
      rfl
    · rw [abs_v a1]
      have := Linked_insert_after hc.2 (view_fresh s) val
      simpa using this
    · rw [abs_len a1, hlen]
    · intro hleak c hcl
      rw [abs_v a1] at hcl
      dsimp only at hcl
      simp only [List.map_append, List.map_cons, List.map_nil, List.mem_append, List.mem_cons,
        List.mem_singleton, List.not_mem_nil, or_false]
      by_cases hca : c = a
      · exact Or.inl (Or.inr hca)
      · by_cases hcn : c = s.cells.length
        · exact Or.inr (Or.inl hcn)
        · rw [Function.update_noteq hca, Function.update_noteq hcn] at hcl
          have := hleak c hcl
          simp only [List.map_append, List.map_cons, List.mem_append, List.mem_cons] at this
          rcases this with h | h | h
          · exact Or.inl (Or.inl h)
          · exact absurd h hca
          · exact Or.inr (Or.inr h)

theorem insert_n_fail {s : State α} {l : List (Nat × α)} (hc : IsChain s l)
    (hlen : s.list.len = l.length) (val : α) (n : Int) (junk : Ptr)
    (hn : n < 0 ∨ (l.length : Int) < n) :
    ll_insert_n s val n junk = .error .fault ∨
      ∃ s1, ll_insert_n s val n junk = .ok (-1, s1) ∧ abs s1 = abs s := by
  rcases hn with hn | hn
  · exact Or.inr ⟨s, insert_n_neg s val hn junk, rfl⟩
  · obtain ⟨k, rfl⟩ : ∃ k : Nat, n = (k : Int) + 1 := ⟨(n - 1).toNat, by omega⟩
    by_cases hk : k = 0
    · subst hk
      have hl0 : l = [] := by
        cases l with
        | nil => rfl
        | cons p l =>
          simp only [List.length_cons] at hn
          omega
      subst hl0
      left
      have e : abs s = ⟨view s.cells, s.cells.length, none, s.list.len, s.torn⟩ := by
        rw [abs_self, hc.1]
        rfl
      have := insert_n_empty_one e (by rw [hlen]; simp) val junk
      simpa using this
    · right
      obtain ⟨s1, h1, a1⟩ := insert_n_miss (abs_self s) hc.1 hc.2 val junk k (by omega)
        (by omega)
      exact ⟨s1, h1, a1⟩

theorem get_n_chain {s : State α} {l : List (Nat × α)} (hc : IsChain s l) (k : Nat)
    (hk : k < l.length) (junk : Ptr) :
    ∃ s1, ll_get_n s (k : Int) junk = .ok ((l.map Prod.snd)[k]?, s1) ∧ abs s1 = abs s := by
  obtain ⟨l1, ⟨a, x⟩, l2, rfl, hl1⟩ := split_at l k hk
  obtain ⟨s1, h1, a1⟩ := get_n_hit (abs_self s) hc.1 hc.2 junk
  refine ⟨s1, ?_, a1⟩
  have hx : (List.map Prod.snd (l1 ++ (a, x) :: l2))[l1.length]? = some x := by
    rw [List.map_append, List.map_cons]
    have := getElem?_mid (l1.map Prod.snd) x (l2.map Prod.snd)
    rwa [List.length_map] at this
  rw [← hl1, h1, hx]

theorem get_n_fail {s : State α} {l : List (Nat × α)} (hc : IsChain s l) (k : Nat)
    (hk1 : 1 ≤ k) (hk : l.length ≤ k) (junk : Ptr) :
    ∃ s1, ll_get_n s (k : Int) junk = .ok (none, s1) ∧ abs s1 = abs s :=
  get_n_miss (abs_self s) hc.1 hc.2 junk k hk1 hk

theorem first_match_split (cond : α → Bool) (l : List (Nat × α)) :
    (∀ p ∈ l, cond p.2 = false) ∨
      ∃ l1 a x l2, l = l1 ++ (a, x) :: l2 ∧ (∀ p ∈ l1, cond p.2 = false) ∧ cond x = true := by
  induction l with
  | nil => exact Or.inl (by simp)
  | cons q l ih =>
    obtain ⟨b, y⟩ := q
    by_cases hy : cond y = true
    · exact Or.inr ⟨[], b, y, l, rfl, by simp, hy⟩
    · have hy2 : cond y = false := by simpa using hy
      rcases ih with h | ⟨l1, a, x, l2, h1, h2, h3⟩
      · left
        intro p hp
        rcases List.mem_cons.1 hp with rfl | hp
        · exact hy2
        · exact h p hp
      · right
        refine ⟨(b, y) :: l1, a, x, l2, by rw [h1]; rfl, ?_, h3⟩
        intro p hp
        rcases List.mem_cons.1 hp with rfl | hp
        · exact hy2
        · exact h2 p hp

theorem remove_search_chain {s : State α} {l1 l2 : List (Nat × α)} {a : Nat} {x : α}
    (hc : IsChain s (l1 ++ (a, x) :: l2)) (cond : α → Bool)
    (h1 : ∀ p ∈ l1, cond p.2 = false) (hx : cond x = true) :
    ∃ s1, ll_remove_search s cond = .ok (s.list.len - 1, s1) ∧ IsChain s1 (l1 ++ l2) ∧
      s1.list.len = s.list.len - 1 ∧ s1.torn = s.torn ++ [x] ∧
      ((∀ c, view s.cells c ≠ none → c ∈ (l1 ++ (a, x) :: l2).map Prod.fst) →
        ∀ c, view s1.cells c ≠ none → c ∈ (l1 ++ l2).map Prod.fst) := by
  rcases List.eq_nil_or_concat l1 with rfl | ⟨l0, ⟨b, y⟩, rfl⟩
  · obtain ⟨s1, hs1, a1⟩ := remove_search_head (abs_self s) hc.1 hc.2 cond hx
    refine ⟨s1, hs1, ⟨abs_hd a1, ?_⟩, abs_len a1, abs_torn a1, ?_⟩
    · rw [abs_v a1]
      exact Linked_remove_head hc.2
    · intro hleak c hcl
      rw [abs_v a1] at hcl
      dsimp only at hcl
      by_cases hca : c = a
      · subst hca
        simp at hcl
      · rw [Function.update_noteq hca] at hcl
        have := hleak c hcl
        simp only [List.nil_append, List.map_cons, List.mem_cons] at this
        rcases this with h | h
        · exact absurd h hca
        · simpa using h
  · rw [List.concat_eq_append] at hc h1 ⊢
    have hc2 : IsChain s (l0 ++ (b, y) :: (a, x) :: l2) := by simpa using hc
    obtain ⟨s1, hs1, a1⟩ := remove_search_after (abs_self s) hc2.1 hc2.2 cond h1 hx
    have hl3 : l0 ++ [(b, y)] ++ l2 = l0 ++ (b, y) :: l2 := by simp
    rw [hl3]
    refine ⟨s1, hs1, ⟨?_, ?_⟩, abs_len a1, abs_torn a1, ?_⟩
    · rw [abs_hd a1]
      show s.list.hd = _
      rw [hc2.1]
      simp only [first_append]
      rfl
    · rw [abs_v a1]
      exact Linked_remove_after hc2.2
    · intro hleak c hcl
      rw [abs_v a1] at hcl
      dsimp only at hcl
      by_cases hca : c = a
      · subst hca
        simp at hcl
      · rw [Function.update_noteq hca] at hcl
        by_cases hcb : c = b
        · subst hcb
          simp
        · rw [Function.update_noteq hcb] at hcl
          have := hleak c hcl
          simp only [List.map_append, List.map_cons, List.map_nil, List.mem_append,
            List.mem_cons, List.mem_singleton, List.not_mem_nil, or_false] at this ⊢
          rcases this with (h | h) | h | h
          · exact Or.inl h
          · exact absurd h hcb
          · exact absurd h hca
          · exact Or.inr (Or.inr h)

theorem remove_n_chain {s : State α} {l1 l2 : List (Nat × α)} {a b : Nat} {x y : α}
    (hc : IsChain s (l1 ++ (a, x) :: (b, y) :: l2)) (junk : Ptr) :
    ∃ s1, ll_remove_n s ((l1.length : Int) + 1) junk = .ok (s.list.len - 1, s1) ∧
      IsChain s1 (l1 ++ (a, x) :: l2) ∧ s1.list.len = s.list.len - 1 ∧
      s1.torn = s.torn ++ [y] ∧
      ((∀ c, view s.cells c ≠ none → c ∈ (l1 ++ (a, x) :: (b, y) :: l2).map Prod.fst) →
        ∀ c, view s1.cells c ≠ none → c ∈ (l1 ++ (a, x) :: l2).map Prod.fst) := by
  obtain ⟨s1, hs1, a1⟩ := remove_n_after (abs_self s) hc.1 hc.2 junk
  refine ⟨s1, hs1, ⟨?_, ?_⟩, abs_len a1, abs_torn a1, ?_⟩
  · rw [abs_hd a1]
    show s.list.hd = _
    rw [hc.1]
    simp only [first_append]
    rfl
  · rw [abs_v a1]
    exact Linked_remove_after hc.2
  · intro hleak c hcl
    rw [abs_v a1] at hcl
    dsimp only at hcl
    by_cases hcb : c = b
    · subst hcb
      simp at hcl
    · rw [Function.update_noteq hcb] at hcl
      by_cases hca : c = a
      · subst hca
        simp
      · rw [Function.update_noteq hca] at hcl
        have := hleak c hcl
        simp only [List.map_append, List.map_cons, List.mem_append, List.mem_cons] at this ⊢
        rcases this with h | h | h | h
        · exact Or.inl h
        · exact absurd h hca
        · exact absurd h hcb
        · exact Or.inr (Or.inr h)

theorem remove_head_chain {s : State α} {l2 : List (Nat × α)} {a : Nat} {x : α}
    (hc : IsChain s ((a, x) :: l2)) (hlen : 0 < s.list.len) {j : Nat}
    (hj : view s.cells j ≠ none) :
    ∃ s1, ll_remove_n s 0 (some j) = .ok (s.list.len - 1, s1) ∧ IsChain s1 l2 ∧
      s1.list.len = s.list.len - 1 ∧ s1.torn = s.torn ++ [x] ∧
      ((∀ c, view s.cells c ≠ none → c ∈ ((a, x) :: l2).map Prod.fst) →
        ∀ c, view s1.cells c ≠ none → c ∈ l2.map Prod.fst) := by
  have e : abs s = ⟨view s.cells, s.cells.length, some a, s.list.len, s.torn⟩ := by
    rw [abs_self, hc.1]
    rfl
  obtain ⟨⟨u, g⟩, hj2⟩ := Option.ne_none_iff_exists'.1 hj
  obtain ⟨s1, hs1, a1⟩ := remove_n_head e hc.2.1 hlen hj2
  refine ⟨s1, hs1, ⟨abs_hd a1, ?_⟩, abs_len a1, abs_torn a1, ?_⟩
  · rw [abs_v a1]
    exact Linked_remove_head hc.2
  · intro hleak c hcl
    rw [abs_v a1] at hcl
    dsimp only at hcl
    by_cases hca : c = a
    · subst hca
      simp at hcl
    · rw [Function.update_noteq hca] at hcl
      have := hleak c hcl
      simp only [List.map_cons, List.mem_cons] at this
      rcases this with h | h
      · exact absurd h hca
      · exact h

/-! ## The invariant is kept by every call that returns -/

theorem Inv_of_abs {s s1 : State α} (h : abs s1 = abs s) (hI : Inv s) : Inv s1 := by
  obtain ⟨l, hc, hlen, hleak⟩ := hI
  refine ⟨l, (IsChain_of_abs h l).2 hc, ?_, ?_⟩
  · rw [abs_len h]
    exact hlen
  · rw [abs_v h]
    exact hleak

theorem Inv_new : Inv (ll_new : State α) :=
  ⟨[], ⟨rfl, trivial⟩, rfl, fun _ ha => absurd rfl ha⟩

theorem insert_n_inv {s s1 : State α} (hI : Inv s) {val : α} {n r : Int} {junk : Ptr}
    (hr : ll_insert_n s val n junk = .ok (r, s1)) : Inv s1 := by
  obtain ⟨l, hc, hlen, hleak⟩ := hI
  by_cases hn : n < 0 ∨ (l.length : Int) < n
  · rcases insert_n_fail hc hlen val n junk hn with h | ⟨s2, h, a2⟩
    · rw [h] at hr
      cases hr
    · rw [h] at hr
      cases hr
      exact Inv_of_abs a2 ⟨l, hc, hlen, hleak⟩
  · obtain ⟨k, rfl⟩ : ∃ k : Nat, n = (k : Int) := ⟨n.toNat, by omega⟩
    obtain ⟨s2, h, hc2, hlen2, _, hleak2⟩ := insert_n_chain hc hlen k (by omega) val junk
    rw [h] at hr
    cases hr
    refine ⟨_, hc2, ?_, hleak2 hleak⟩
    rw [hlen2]
    simp only [List.length_append, List.length_take, List.length_cons, List.length_drop]
    omega

theorem remove_n_inv {s s1 : State α} (hI : Inv s) {n r : Int} {junk : Ptr}
    (hr : ll_remove_n s n junk = .ok (r, s1)) : Inv s1 := by
  obtain ⟨l, hc, hlen, hleak⟩ := hI
  rcases lt_trichotomy n 0 with hn | hn | hn
  · rw [remove_n_neg s hn junk] at hr
    cases hr
    exact ⟨l, hc, hlen, hleak⟩
  · subst hn
    have hjunk : (junk = none ∨ ∃ j, junk = some j ∧ view s.cells j = none) ∨
        ∃ j, junk = some j ∧ view s.cells j ≠ none := by
      cases junk with
      | none => exact Or.inl (Or.inl rfl)
      | some j =>
        by_cases hj : view s.cells j = none
        · exact Or.inl (Or.inr ⟨j, rfl, hj⟩)
        · exact Or.inr ⟨j, rfl, hj⟩
    cases l with
    | nil =>
      have hdead : junk = none ∨ ∃ j, junk = some j ∧ view s.cells j = none := by
        rcases hjunk with h | ⟨j, _, hj⟩
        · exact h
        · exact absurd (hleak j hj) (by simp)
      rw [remove_n_zero_empty (abs_self s) (by rw [hlen]; simp) hdead] at hr
      cases hr
    | cons p l2 =>
      obtain ⟨a, x⟩ := p
      have hpos : 0 < s.list.len := by
        rw [hlen]
        have : 0 < ((a, x) :: l2).length := by simp
        exact_mod_cast this
      rcases hjunk with hdead | ⟨j, rfl, hj⟩
      · have e : abs s = ⟨view s.cells, s.cells.length, some a, s.list.len, s.torn⟩ := by
          rw [abs_self, hc.1]
          rfl
        rw [remove_n_head_junk e hc.2.1 hpos hdead] at hr
        cases hr
      · obtain ⟨s2, h, hc2, hlen2, _, hleak2⟩ := remove_head_chain hc hpos hj
        rw [h] at hr
        cases hr
        refine ⟨l2, hc2, ?_, hleak2 hleak⟩
        rw [hlen2, hlen]
        simp
  · obtain ⟨k, rfl⟩ : ∃ k : Nat, n = (k : Int) + 1 := ⟨(n - 1).toNat, by omega⟩
    by_cases hk : k < l.length
    · obtain ⟨l1, ⟨a, x⟩, l2, rfl, hl1⟩ := split_at l k hk
      subst hl1
      cases l2 with
      | nil =>
        rw [remove_n_last (abs_self s) hc.1 hc.2 junk] at hr
        cases hr
      | cons q l3 =>
        obtain ⟨b, y⟩ := q
        obtain ⟨s2, h, hc2, hlen2, _, hleak2⟩ := remove_n_chain hc junk
        rw [h] at hr
        cases hr
        refine ⟨_, hc2, ?_, hleak2 hleak⟩
        rw [hlen2, hlen]
        simp only [List.length_append, List.length_cons]
        push_cast
        ring
    · by_cases hk0 : k = 0
      · subst hk0
        have hl0 : l = [] := by
          cases l with
          | nil => rfl
          | cons p l => simp at hk
        subst hl0
        have e : abs s = ⟨view s.cells, s.cells.length, none, s.list.len, s.torn⟩ := by
          rw [abs_self, hc.1]
          rfl
        have := remove_n_empty_one e junk
        rw [show ((0 : Nat) : Int) + 1 = 1 from rfl, this] at hr
        cases hr
      · obtain ⟨s2, h, a2⟩ := remove_n_miss (abs_self s) hc.1 hc.2 junk k (by omega)
          (by omega)
        rw [h] at hr
        cases hr
        exact Inv_of_abs a2 ⟨l, hc, hlen, hleak⟩

theorem remove_search_inv {s s1 : State α} (hI : Inv s) {cond : α → Bool} {r : Int}
    (hr : ll_remove_search s cond = .ok (r, s1)) : Inv s1 := by
  obtain ⟨l, hc, hlen, hleak⟩ := hI
  rcases first_match_split cond l with hnone | ⟨l1, a, x, l2, rfl, h1, hx⟩
  · rw [remove_search_none (abs_self s) hc.1 hc.2 cond hnone] at hr
    cases hr
    exact ⟨l, hc, hlen, hleak⟩
  · obtain ⟨s2, h, hc2, hlen2, _, hleak2⟩ := remove_search_chain hc cond h1 hx
    rw [h] at hr
    cases hr
    refine ⟨_, hc2, ?_, hleak2 hleak⟩
    rw [hlen2, hlen]
    simp only [List.length_append, List.length_cons]
    push_cast
    ring

theorem Op_run_inv {s s1 : State α} (hI : Inv s) {op : Op α} {r : Int}
    (hr : op.run s = .ok (r, s1)) : Inv s1 := by
  cases op with
  | insert_first val junk =>
    exact insert_n_inv hI (show ll_insert_n s val 0 junk = .ok (r, s1) from hr)
  | insert_last val junk => exact insert_n_inv hI hr
  | insert_n val n junk => exact insert_n_inv hI hr
  | remove_first junk =>
    exact remove_n_inv hI (show ll_remove_n s 0 junk = .ok (r, s1) from hr)
  | remove_n n junk => exact remove_n_inv hI hr
  | remove_search cond => exact remove_search_inv hI hr

theorem runOps_inv (ops : List (Op α)) :
    ∀ {s s1 : State α}, Inv s → runOps s ops = .ok s1 → Inv s1 := by
  induction ops with
  | nil =>
    intro s s1 hI hr
    simp only [runOps, Except.ok.injEq] at hr
    subst hr
    exact hI
  | cons op ops ih =>
    intro s s1 hI hr
    simp only [runOps] at hr
    split at hr
    · cases hr
    · rename_i r s2 hop
      exact ih (Op_run_inv hI hop) hr

theorem Inv_chain {s : State α} (hI : Inv s) :
    ∃ xs, chain s = some xs ∧ s.list.len = xs.length := by
  obtain ⟨l, hc, hlen, _⟩ := hI
  exact ⟨l.map Prod.snd, chain_eq_some_iff.2 ⟨l, hc, rfl⟩, by rw [hlen]; simp⟩

theorem insert_n_values {s : State α} {xs : List α} (hc : chain s = some xs)
    (hlen : s.list.len = xs.length) (v : α) (n : Nat) (hn : n ≤ xs.length) (junk : Ptr) :
    ∃ s1, ll_insert_n s v (n : Int) junk = .ok ((xs.length : Int) + 1, s1) ∧
      chain s1 = some (xs.take n ++ v :: xs.drop n) ∧
      s1.list.len = (xs.length : Int) + 1 := by
  obtain ⟨l, hl, rfl⟩ := chain_eq_some_iff.1 hc
  rw [List.length_map] at hlen hn ⊢
  obtain ⟨s1, h1, hc1, hlen1, _, _⟩ := insert_n_chain hl hlen n hn v junk
  refine ⟨s1, h1, chain_eq_some_iff.2 ⟨_, hc1, ?_⟩, hlen1⟩
  simp

theorem get_n_values {s : State α} {xs : List α} (hc : chain s = some xs) (n : Nat)
    (hn : n < xs.length) (junk : Ptr) :
    ∃ s1, ll_get_n s (n : Int) junk = .ok (some xs[n], s1) ∧ abs s1 = abs s := by
  obtain ⟨l, hl, rfl⟩ := chain_eq_some_iff.1 hc
  obtain ⟨s1, h1, a1⟩ := get_n_chain hl n (by simpa using hn) junk
  refine ⟨s1, ?_, a1⟩
  rw [h1, List.getElem?_eq_getElem hn]

theorem eraseIdx_mid {β : Type} (l1 : List β) (b : β) (l2 : List β) :
    (l1 ++ b :: l2).eraseIdx l1.length = l1 ++ l2 := by
  induction l1 with
  | nil => rfl
  | cons c l1 ih => simpa using ih

theorem remove_n_values {s : State α} {xs : List α} (hc : chain s = some xs) (n : Nat)
    (h1 : 1 ≤ n) (hn : n < xs.length) (junk : Ptr) :
    ∃ s1 y, ll_remove_n s (n : Int) junk = .ok (s.list.len - 1, s1) ∧
      chain s1 = some (xs.eraseIdx n) ∧ s1.list.len = s.list.len - 1 ∧
      xs[n]? = some y ∧ s1.torn = s.torn ++ [y] := by
  obtain ⟨l, hl, rfl⟩ := chain_eq_some_iff.1 hc
  obtain ⟨k, rfl⟩ : ∃ k, n = k + 1 := ⟨n - 1, by omega⟩
  rw [List.length_map] at hn
  obtain ⟨l1, ⟨a, x⟩, l3, rfl, hl1⟩ := split_at l k (by omega)
  cases l3 with
  | nil =>
    simp only [List.length_append, List.length_cons, List.length_nil] at hn
    omega
  | cons q l2 =>
    obtain ⟨b, y⟩ := q
    obtain ⟨s1, hs1, hc1, hlen1, ht1, _⟩ := remove_n_chain hl junk
    have hcast : ((k + 1 : Nat) : Int) = (l1.length : Int) + 1 := by
      rw [hl1]
      push_cast
      rfl
    have hlen2 : (List.map Prod.snd (l1 ++ [(a, x)])).length = k + 1 := by
      simp [hl1]
    have hmap : List.map Prod.snd (l1 ++ (a, x) :: (b, y) :: l2) =
        List.map Prod.snd (l1 ++ [(a, x)]) ++ y :: List.map Prod.snd l2 := by
      simp
    refine ⟨s1, y, ?_, chain_eq_some_iff.2 ⟨_, hc1, ?_⟩, hlen1, ?_, ht1⟩
    · rw [hcast]
      exact hs1
    · have := eraseIdx_mid ((l1 ++ [(a, x)]).map Prod.snd) y (l2.map Prod.snd)
      rw [hlen2] at this
      rw [hmap, this]
      simp
    · have := getElem?_mid ((l1 ++ [(a, x)]).map Prod.snd) y (l2.map Prod.snd)
      rw [hlen2] at this
      rw [hmap, this]

theorem remove_n_head_values {s : State α} {x : α} {xs : List α}
    (hc : chain s = some (x :: xs)) (hlen : 0 < s.list.len) {j : Nat}
    (hj : view s.cells j ≠ none) :
    ∃ s1, ll_remove_n s 0 (some j) = .ok (s.list.len - 1, s1) ∧ chain s1 = some xs ∧
      s1.list.len = s.list.len - 1 ∧ s1.torn = s.torn ++ [x] := by
  obtain ⟨l, hl, hmap⟩ := chain_eq_some_iff.1 hc
  cases l with
  | nil => simp at hmap
  | cons p l2 =>
    obtain ⟨a, y⟩ := p
    simp only [List.map_cons, List.cons.injEq] at hmap
    obtain ⟨rfl, rfl⟩ := hmap
    obtain ⟨s1, hs1, hc1, hlen1, ht1, _⟩ := remove_head_chain hl hlen hj
    exact ⟨s1, hs1, chain_eq_some_iff.2 ⟨_, hc1, rfl⟩, hlen1, ht1⟩

/-! ## The claims -/

/-- Length invariant of the calls that return.  For every sequence of `ll_insert_first`,
`ll_insert_last`, `ll_insert_n`, `ll_remove_first`, `ll_remove_n` and `ll_remove_search`
calls, with any indices and predicates, run on a list made by `ll_new`: when the first `k`
calls have all returned, the nodes reachable from `hd` form a chain that ends in NULL and
`len` is the number of these nodes.  Nothing is said of a sequence with a call that does not
return. -/
theorem len_counts_reachable_nodes (ops : List (Op α)) (k : Nat) (s : State α)
    (h : runOps ll_new (ops.take k) = .ok s) :
    ∃ xs, chain s = some xs ∧ s.list.len = xs.length :=
  Inv_chain (runOps_inv (ops.take k) Inv_new h)

/-- The calls of the test program keep the length invariant when they all return, that is
when the unset `nth_node` of its `ll_remove_first` call holds the address of a live node. -/
theorem len_counts_reachable_nodes_witness :
    runOps ll_new (mainOps.take 16) = .ok mainState ∧
      ∃ xs, chain mainState = some xs ∧ mainState.list.len = xs.length :=
  ⟨rfl, len_counts_reachable_nodes mainOps 16 mainState rfl⟩

/-- C2: on a list whose chain holds the values `xs` and whose `len` is the length of `xs`,
`ll_insert_n(list, v, n)` with `0 ≤ n ≤ length` returns `length + 1`, leaves the chain equal
to the first `n` values of `xs`, then `v`, then the remaining values of `xs`, and sets `len`
to `length + 1`. -/
theorem ll_insert_n_inserts_at_index (s : State α) (xs : List α) (v : α) (n : Nat)
    (junk : Ptr) (hc : chain s = some xs) (hlen : s.list.len = xs.length)
    (hn : n ≤ xs.length) :
    ∃ s1, ll_insert_n s v (n : Int) junk = .ok ((xs.length : Int) + 1, s1) ∧
      chain s1 = some (xs.take n ++ v :: xs.drop n) ∧
      s1.list.len = (xs.length : Int) + 1 :=
  insert_n_values hc hlen v n hn junk

/-- Inserting `99` at index `1` of the list `[10, 20, 30]`. -/
theorem ll_insert_n_inserts_at_index_witness :
    ∃ s1, ll_insert_n demo3 99 ((1 : Nat) : Int) none =
        .ok ((([10, 20, 30] : List Nat).length : Int) + 1, s1) ∧
      chain s1 =
        some (([10, 20, 30] : List Nat).take 1 ++ 99 :: ([10, 20, 30] : List Nat).drop 1) ∧
      s1.list.len = (([10, 20, 30] : List Nat).length : Int) + 1 :=
  ll_insert_n_inserts_at_index demo3 [10, 20, 30] 99 1 none (by decide) (by decide)
    (by decide)

/-- C3: on a list whose chain holds the values `xs`, `ll_get_n(list, n)` with
`0 ≤ n < length` returns the value at position `n` of `xs` and leaves the chain and `len` as
they were; `ll_get_first` is the case `n = 0` and returns the head value. -/
theorem ll_get_n_returns_nth (s : State α) (xs : List α) (n : Nat) (junk : Ptr)
    (hc : chain s = some xs) (hn : n < xs.length) :
    ∃ s1, ll_get_n s (n : Int) junk = .ok (some xs[n], s1) ∧ chain s1 = some xs ∧
      s1.list.len = s.list.len ∧ (n = 0 → ll_get_first s junk = .ok (xs.head?, s1)) := by
  obtain ⟨s1, h1, a1⟩ := get_n_values hc n hn junk
  refine ⟨s1, h1, ?_, abs_len a1, ?_⟩
  · rw [chain_of_abs a1]
    exact hc
  · intro h0
    subst h0
    have : xs.head? = some xs[0] := by
      cases xs with
      | nil => simp at hn
      | cons x xs => rfl
    rw [this]
    exact h1

/-- Reading index `0` of the list `[10, 20, 30]`. -/
theorem ll_get_n_returns_nth_witness :
    ∃ s1, ll_get_n demo3 ((0 : Nat) : Int) none = .ok (some 10, s1) ∧
      chain s1 = some [10, 20, 30] ∧ s1.list.len = demo3.list.len ∧
      ((0 : Nat) = 0 → ll_get_first demo3 none = .ok (([10, 20, 30] : List Nat).head?, s1)) :=
  ll_get_n_returns_nth demo3 [10, 20, 30] 0 none (by decide) (by decide)

/-- C4, at the failing input: on the list `[10, 20, 30]` with `len == 3`, the outcome of
`ll_remove_n(list, 0)` depends on the local `nth_node`, which `ll_select_n` leaves unset at
`n == 0`.  When it holds NULL, `UNLOCK(nth_node->m)` is an invalid access and the call does
not return; when it happens to hold the address of a live node, the call returns 2 with the
chain `[20, 30]` and `val_teardown` called on `10`. -/
theorem ll_remove_n_head_unset_pointer :
    chain demo3 = some [10, 20, 30] ∧ demo3.list.len = 3 ∧
      ll_remove_n demo3 0 none = .error .fault ∧
      ∃ s1, ll_remove_n demo3 0 (some 1) = .ok (2, s1) ∧ chain s1 = some [20, 30] ∧
        s1.torn = [10] := by
  refine ⟨by decide, by decide, rfl, ?_⟩
  obtain ⟨s1, h1, hc1, _, ht1⟩ :=
    remove_n_head_values (show chain demo3 = some (10 :: [20, 30]) by decide)
      (show 0 < demo3.list.len by decide) (show view demo3.cells 1 ≠ none by decide)
  exact ⟨s1, h1, hc1, ht1⟩

/-- C5: on a list whose chain holds the values `xs` and whose `len` is the length of `xs`:
when some value of `xs` satisfies `cond`, `ll_remove_search` returns `length - 1`, leaves the
chain equal to `xs` without its first value that satisfies `cond` (later matches stay) and
sets `len` to `length - 1`; when no value satisfies `cond` it returns `-1` and the state is
the one before the call (chain, `len` and the `val_teardown` calls). -/
theorem ll_remove_search_erases_first_match (s : State α) (xs : List α) (cond : α → Bool)
    (hc : chain s = some xs) (hlen : s.list.len = xs.length) :
    (xs.any cond = true →
      ∃ s1, ll_remove_search s cond = .ok ((xs.length : Int) - 1, s1) ∧
        chain s1 = some (xs.eraseP cond) ∧ s1.list.len = (xs.length : Int) - 1) ∧
    (xs.any cond = false → ll_remove_search s cond = .ok (-1, s)) := by
  obtain ⟨l, hl, rfl⟩ := chain_eq_some_iff.1 hc
  constructor
  · intro hany
    rcases first_match_split cond l with hnone | ⟨l1, a, x, l2, rfl, h1, hx⟩
    · exfalso
      obtain ⟨y, hy, hcy⟩ := List.any_eq_true.1 hany
      obtain ⟨p, hp, rfl⟩ := List.mem_map.1 hy
      rw [hnone p hp] at hcy
      cases hcy
    · obtain ⟨s1, hs1, hc1, hlen1, _, _⟩ := remove_search_chain hl cond h1 hx
      refine ⟨s1, ?_, chain_eq_some_iff.2 ⟨_, hc1, ?_⟩, ?_⟩
      · rw [hs1, hlen]
      · rw [List.map_append, List.map_append, List.map_cons,
          List.eraseP_append_right, List.eraseP_cons_of_pos hx]
        intro b hb
        obtain ⟨p, hp, rfl⟩ := List.mem_map.1 hb
        rw [h1 p hp]
        simp
      · rw [hlen1, hlen]
  · intro hany
    apply remove_search_none (abs_self s) hl.1 hl.2 cond
    intro p hp
    have := List.any_eq_false.1 hany p.2 (List.mem_map_of_mem _ hp)
    simpa using this

/-- Removing the first `3` of the list `[3, 1, 6, 5, 3]`, the state of the test program after
its first fourteen calls: the later `3` stays. -/
theorem ll_remove_search_erases_first_match_witness :
    (([3, 1, 6, 5, 3] : List Nat).any num_equals_3 = true →
      ∃ s1, ll_remove_search (stateOf (runOps ll_new (mainOps.take 14))) num_equals_3 =
          .ok ((([3, 1, 6, 5, 3] : List Nat).length : Int) - 1, s1) ∧
        chain s1 = some (([3, 1, 6, 5, 3] : List Nat).eraseP num_equals_3) ∧
        s1.list.len = (([3, 1, 6, 5, 3] : List Nat).length : Int) - 1) ∧
    (([3, 1, 6, 5, 3] : List Nat).any num_equals_3 = false →
      ll_remove_search (stateOf (runOps ll_new (mainOps.take 14))) num_equals_3 =
        .ok (-1, stateOf (runOps ll_new (mainOps.take 14)))) :=
  ll_remove_search_erases_first_match (stateOf (runOps ll_new (mainOps.take 14)))
    [3, 1, 6, 5, 3] num_equals_3 (by decide) (by decide)

/-- C6: on a list whose chain holds the values `xs` and whose `len` is the length of `xs`,
whenever `ll_insert_n(list, v, n)` succeeds (returns a value other than `-1`), the next
`ll_get_n(list, n)` returns `v`. -/
theorem ll_get_n_after_ll_insert_n (s : State α) (xs : List α) (v : α) (n : Int)
    (junk junk2 : Ptr) (r : Int) (s1 : State α) (hc : chain s = some xs)
    (hlen : s.list.len = xs.length) (hins : ll_insert_n s v n junk = .ok (r, s1))
    (hr : r ≠ -1) :
    ∃ s2, ll_get_n s1 n junk2 = .ok (some v, s2) := by
  obtain ⟨l, hl, rfl⟩ := chain_eq_some_iff.1 hc
  rw [List.length_map] at hlen
  by_cases hn : n < 0 ∨ (l.length : Int) < n
  · rcases insert_n_fail hl hlen v n junk hn with h | ⟨s2, h, _⟩
    · rw [h] at hins
      cases hins
    · rw [h] at hins
      cases hins
      exact absurd rfl hr
  · obtain ⟨k, rfl⟩ : ∃ k : Nat, n = (k : Int) := ⟨n.toNat, by omega⟩
    have hk : k ≤ l.length := by omega
    obtain ⟨s2, h, hc2, _, _, _⟩ := insert_n_chain hl hlen k hk v junk
    rw [h] at hins
    cases hins
    obtain ⟨s3, h3, _⟩ := get_n_hit (abs_self s1) hc2.1 hc2.2 junk2
    rw [List.length_take, Nat.min_eq_left hk] at h3
    exact ⟨s3, h3⟩

/-- Inserting `99` at index `3` of the list `[10, 20, 30]` and reading index `3`. -/
theorem ll_get_n_after_ll_insert_n_witness :
    ∃ s2, ll_get_n (stateOf (runOps demo3 [.insert_n 99 3 none])) 3 none = .ok (some 99, s2) :=
  ll_get_n_after_ll_insert_n demo3 [10, 20, 30] 99 3 none none 4
    (stateOf (runOps demo3 [.insert_n 99 3 none])) (by decide) (by decide) rfl (by decide)

/-- C7, at the failing input: on the empty list, `ll_get_n(list, 0)` does not return NULL.
`ll_select_n(list, &node, 1, l_read)` returns 0 with `node == list->hd == NULL`, and
`UNLOCK(node->m)` is an access through NULL, whatever `node` held before the call. -/
theorem ll_get_n_empty_list_faults (junk : Ptr) :
    chain (ll_new : State Nat) = some [] ∧ (ll_new : State Nat).list.len = 0 ∧
      ll_get_n (ll_new : State Nat) 0 junk = .error .fault :=
  ⟨by decide, by decide, rfl⟩

/-- C8, at the failing input: on the list `[10]` with `len == 1`, `ll_remove_n(list, 1)` does
not return `-1`.  `ll_select_n` returns 0 with `nth_node` the last node, `tmp` is its NULL
successor, `len` is decremented and `tmp->val` is an access through NULL. -/
theorem ll_remove_n_at_length_faults (junk : Ptr) :
    chain demo1 = some [10] ∧ demo1.list.len = 1 ∧
      ll_remove_n demo1 1 junk = .error .fault :=
  ⟨by decide, by decide, rfl⟩

/-- C9, at the failing input: on the empty list, `ll_insert_n(list, v, 1)` does not return
`-1`.  `ll_select_n` returns 0 with `nth_node == NULL`, the branch marked "won't get here" is
taken and its `UNLOCK(nth_node->m)` is an access through NULL. -/
theorem ll_insert_n_one_on_empty_faults (junk : Ptr) :
    chain (ll_new : State Nat) = some [] ∧ (ll_new : State Nat).list.len = 0 ∧
      ll_insert_n (ll_new : State Nat) 7 1 junk = .error .fault :=
  ⟨by decide, by decide, rfl⟩

/-- C10, at the failing input: on the list `[10, 20, 30]`, `ll_get_n(list, -1)` does not
return NULL.  `ll_select_n(list, &node, 0, l_read)` returns 0 and leaves `node` unset: when
`node` holds NULL the call faults, when it holds the address of a live node the call returns
the value of that node. -/
theorem ll_get_n_minus_one_no_failure :
    ll_get_n demo3 (-1) none = .error .fault ∧
      (∃ s1, ll_get_n demo3 (-1) (some 0) = .ok (some 10, s1)) ∧
      ∀ (junk : Ptr) (s1 : State Nat), ll_get_n demo3 (-1) junk ≠ .ok (none, s1) := by
  refine ⟨rfl, ⟨_, rfl⟩, ?_⟩
  intro junk s1 h
  cases junk with
  | none =>
    rw [get_n_minus_one_null] at h
    cases h
  | some j =>
    by_cases hj : view demo3.cells j = none
    · rw [get_n_minus_one_dead (abs_self demo3) hj] at h
      cases h
    · obtain ⟨⟨u, g⟩, hj2⟩ := Option.ne_none_iff_exists'.1 hj
      obtain ⟨s2, h2⟩ := get_n_minus_one_live (abs_self demo3) hj2
      rw [h2] at h
      cases h

/-! ## Teardown, traversal and repeated reads -/

section Walks

variable {v : Nat → Option (α × Ptr)} {n : Nat} {h : Ptr}

theorem delete_loop_ok :
    ∀ (l : List (Nat × α)) (fuel : Nat) (s : State α) (v : Nat → Option (α × Ptr))
      (len : Int) (t : List α),
      abs s = ⟨v, n, h, len, t⟩ → Linked v l none → l.length < fuel →
      ∃ s1 v1, delete_loop fuel (first l none) s = .ok s1 ∧
        abs s1 = ⟨v1, n, h, len - l.length, t ++ l.map Prod.snd⟩ := by
  intro l
  induction l with
  | nil =>
    intro fuel s v len t e _ hf
    obtain ⟨k, rfl⟩ : ∃ k, fuel = k + 1 := ⟨fuel - 1, by simp at hf; omega⟩
    refine ⟨s, v, by simp [delete_loop, first], ?_⟩
    rw [e]
    simp
  | cons q l2 ih =>
    obtain ⟨a, x⟩ := q
    intro fuel s v len t e hl hf
    obtain ⟨k, rfl⟩ : ∃ k, fuel = k + 1 := ⟨fuel - 1, by simp at hf; omega⟩
    have hva : v a = some (x, first l2 none) := hl.1
    obtain ⟨s1, h1, a1⟩ := LOCK_node_abs e hva .l_write
    have hg : get_val s1 (some a) = .ok x := get_val_abs a1 hva
    obtain ⟨s2, h2, a2⟩ := UNLOCK_node_abs (val_teardown_abs a1 x) hva
    have hn : get_nxt s2 (some a) = .ok (first l2 none) := get_nxt_abs a2 hva
    obtain ⟨s3, h3, a3⟩ := free_abs a2 hva
    have hl3 : s3.list.len = len := abs_len a3
    obtain ⟨s4, v4, h4, a4⟩ := ih k (set_len s3 (len - 1)) (Function.update v a none)
      (len - 1) (t ++ [x]) (set_len_abs a3 (len - 1)) (Linked_remove_head hl)
      (by simp at hf; omega)
    refine ⟨s4, v4, ?_, ?_⟩
    · show delete_loop (k + 1) (some a) s = _
      simp only [delete_loop, reduceCtorEq, if_false, h1, hg, h2, hn, h3, hl3]
      exact h4
    · rw [a4]
      simp only [List.length_cons, List.map_cons, List.append_assoc, List.singleton_append,
        Data.mk.injEq, true_and, and_true]
      push_cast
      ring

theorem map_loop_ok :
    ∀ (l : List (Nat × α)) (fuel : Nat) (s : State α) (len : Int) (t : List α),
      abs s = ⟨v, n, h, len, t⟩ → Linked v l none → l.length < fuel →
      ∃ s1, map_loop fuel (first l none) s = .ok (l.map Prod.snd, s1) ∧
        abs s1 = ⟨v, n, h, len, t⟩ := by
  intro l
  induction l with
  | nil =>
    intro fuel s len t e _ hf
    obtain ⟨k, rfl⟩ : ∃ k, fuel = k + 1 := ⟨fuel - 1, by simp at hf; omega⟩
    exact ⟨s, by simp [map_loop, first], e⟩
  | cons q l2 ih =>
    obtain ⟨a, x⟩ := q
    intro fuel s len t e hl hf
    obtain ⟨k, rfl⟩ : ∃ k, fuel = k + 1 := ⟨fuel - 1, by simp at hf; omega⟩
    have hva : v a = some (x, first l2 none) := hl.1
    obtain ⟨s1, h1, a1⟩ := LOCK_node_abs e hva .l_read
    have hg : get_val s1 (some a) = .ok x := get_val_abs a1 hva
    obtain ⟨s2, h2, a2⟩ := UNLOCK_node_abs a1 hva
    have hn : get_nxt s2 (some a) = .ok (first l2 none) := get_nxt_abs a2 hva
    obtain ⟨s3, h3, a3⟩ := ih k s2 len t a2 hl.2 (by simp at hf; omega)
    refine ⟨s3, ?_, a3⟩
    show map_loop (k + 1) (some a) s = _
    simp only [map_loop, reduceCtorEq, if_false, h1, hg, h2, hn, h3, List.map_cons]

end Walks

theorem ll_delete_values {s : State α} {xs : List α} (hc : chain s = some xs) :
    ∃ s2, ll_delete s = .ok s2 ∧ s2.torn = s.torn ++ xs ∧ chain s2 = some [] ∧
      s2.list.len = s.list.len - xs.length := by
  obtain ⟨l, hl, rfl⟩ := chain_eq_some_iff.1 hc
  obtain ⟨s1, h1, a1⟩ := LOCK_list_abs (abs_self s) .l_write
  obtain ⟨s2, v2, h2, a2⟩ := delete_loop_ok l (s.cells.length + 1) s1 _ _ _ a1
    hl.2 (fuel_enough (abs_self s) hl.2)
  obtain ⟨s3, h3, a3⟩ := UNLOCK_list_abs (set_hd_abs a2 none)
  refine ⟨s3, ?_, abs_torn a3, ?_, ?_⟩
  · unfold ll_delete
    rw [hl.1]
    simp only [h1, h2, h3]
  · have hhd : s3.list.hd = none := abs_hd a3
    unfold chain
    rw [hhd]
    cases s3.cells.length <;> rfl
  · rw [abs_len a3]
    simp

theorem ll_map_values {s : State α} {xs : List α} (hc : chain s = some xs) :
    ∃ s1, ll_map s = .ok (xs, s1) ∧ abs s1 = abs s := by
  obtain ⟨l, hl, rfl⟩ := chain_eq_some_iff.1 hc
  obtain ⟨s1, h1, a1⟩ := map_loop_ok l (s.cells.length + 1) s _ _ (abs_self s)
    hl.2 (fuel_enough (abs_self s) hl.2)
  refine ⟨s1, ?_, a1⟩
  unfold ll_map
  rw [hl.1]
  exact h1

theorem get_range_values (junk : Nat → Ptr) {xs : List α} :
    ∀ (k i : Nat) (s : State α), chain s = some xs → i + k ≤ xs.length →
      ∃ s1, get_range junk i k s = .ok (((xs.drop i).take k).map some, s1) ∧
        abs s1 = abs s := by
  intro k
  induction k with
  | zero =>
    intro i s _ _
    exact ⟨s, by simp [get_range], rfl⟩
  | succ k ih =>
    intro i s hc hik
    have hi : i < xs.length := by omega
    obtain ⟨s1, h1, a1⟩ := get_n_values hc i hi (junk i)
    obtain ⟨s2, h2, a2⟩ := ih (i + 1) s1 ((chain_of_abs a1).trans hc) (by omega)
    refine ⟨s2, ?_, a2.trans a1⟩
    simp only [get_range, h1, h2]
    rw [List.drop_eq_getElem_cons hi, List.take_succ_cons, List.map_cons]

theorem insert_first_run (vs : List (α × Ptr)) :
    ∀ (s : State α) (xs : List α), chain s = some xs → s.list.len = xs.length →
      ∃ s1, runOps s (vs.map fun p => Op.insert_first p.1 p.2) = .ok s1 ∧
        chain s1 = some ((vs.map Prod.fst).reverse ++ xs) ∧
        s1.list.len = ((vs.map Prod.fst).reverse ++ xs).length := by
  induction vs with
  | nil =>
    intro s xs hc hlen
    exact ⟨s, rfl, by simpa using hc, by simpa using hlen⟩
  | cons p vs ih =>
    obtain ⟨x, j⟩ := p
    intro s xs hc hlen
    obtain ⟨s1, h1, hc1, hlen1⟩ := insert_n_values hc hlen x 0 (Nat.zero_le _) j
    have hc2 : chain s1 = some (x :: xs) := by simpa using hc1
    have hlen2 : s1.list.len = ((x :: xs).length : Int) := by
      rw [hlen1]
      simp
    obtain ⟨s2, h2, hc3, hlen3⟩ := ih s1 (x :: xs) hc2 hlen2
    have hrun : Op.run s (Op.insert_first x j) = .ok ((xs.length : Int) + 1, s1) := by
      simpa [Op.run, ll_insert_first] using h1
    refine ⟨s2, ?_, ?_, ?_⟩
    · simp only [List.map_cons, runOps, hrun]
      exact h2
    · rw [hc3]
      simp
    · rw [hlen3]
      simp

theorem remove_n_success {s s1 : State α} {l : List (Nat × α)} (hc : IsChain s l)
    (hlen : s.list.len = l.length)
    (hleak : ∀ a, view s.cells a ≠ none → a ∈ l.map Prod.fst) {n r : Int} {junk : Ptr}
    (hr : ll_remove_n s n junk = .ok (r, s1)) (hne : r ≠ -1) :
    ∃ l1 a x l2, l = l1 ++ (a, x) :: l2 ∧ IsChain s1 (l1 ++ l2) ∧
      s1.torn = s.torn ++ [x] := by
  rcases lt_trichotomy n 0 with hn | hn | hn
  · rw [remove_n_neg s hn junk] at hr
    cases hr
    exact absurd rfl hne
  · subst hn
    have hjunk : (junk = none ∨ ∃ j, junk = some j ∧ view s.cells j = none) ∨
        ∃ j, junk = some j ∧ view s.cells j ≠ none := by
      cases junk with
      | none => exact Or.inl (Or.inl rfl)
      | some j =>
        by_cases hj : view s.cells j = none
        · exact Or.inl (Or.inr ⟨j, rfl, hj⟩)
        · exact Or.inr ⟨j, rfl, hj⟩
    cases l with
    | nil =>
      have hdead : junk = none ∨ ∃ j, junk = some j ∧ view s.cells j = none := by
        rcases hjunk with h | ⟨j, _, hj⟩
        · exact h
        · exact absurd (hleak j hj) (by simp)
      rw [remove_n_zero_empty (abs_self s) (by rw [hlen]; simp) hdead] at hr
      cases hr
    | cons p l2 =>
      obtain ⟨a, x⟩ := p
      have hpos : 0 < s.list.len := by
        rw [hlen]
        have : 0 < ((a, x) :: l2).length := by simp
        exact_mod_cast this
      rcases hjunk with hdead | ⟨j, rfl, hj⟩
      · have e : abs s = ⟨view s.cells, s.cells.length, some a, s.list.len, s.torn⟩ := by
          rw [abs_self, hc.1]
          rfl
        rw [remove_n_head_junk e hc.2.1 hpos hdead] at hr
        cases hr
      · obtain ⟨s2, h, hc2, _, ht2, _⟩ := remove_head_chain hc hpos hj
        rw [h] at hr
        cases hr
        exact ⟨[], a, x, l2, rfl, hc2, ht2⟩
  · obtain ⟨k, rfl⟩ : ∃ k : Nat, n = (k : Int) + 1 := ⟨(n - 1).toNat, by omega⟩
    by_cases hk : k < l.length
    · obtain ⟨l1, ⟨a, x⟩, l2, rfl, hl1⟩ := split_at l k hk
      subst hl1
      cases l2 with
      | nil =>
        rw [remove_n_last (abs_self s) hc.1 hc.2 junk] at hr
        cases hr
      | cons q l3 =>
        obtain ⟨b, y⟩ := q
        obtain ⟨s2, h, hc2, _, ht2, _⟩ := remove_n_chain hc junk
        rw [h] at hr
        cases hr
        exact ⟨l1 ++ [(a, x)], b, y, l3, by simp, by simpa using hc2, ht2⟩
    · by_cases hk0 : k = 0
      · subst hk0
        have hl0 : l = [] := by
          cases l with
          | nil => rfl
          | cons p l => simp at hk
        subst hl0
        have e : abs s = ⟨view s.cells, s.cells.length, none, s.list.len, s.torn⟩ := by
          rw [abs_self, hc.1]
          rfl
        have := remove_n_empty_one e junk
        rw [show ((0 : Nat) : Int) + 1 = 1 from rfl, this] at hr
        cases hr
      · obtain ⟨s2, h, _⟩ := remove_n_miss (abs_self s) hc.1 hc.2 junk k (by omega)
          (by omega)
        rw [h] at hr
        cases hr
        exact absurd rfl hne

theorem remove_search_success {s s1 : State α} {l : List (Nat × α)} (hc : IsChain s l)
    {cond : α → Bool} {r : Int} (hr : ll_remove_search s cond = .ok (r, s1))
    (hne : r ≠ -1) :
    ∃ l1 a x l2, l = l1 ++ (a, x) :: l2 ∧ IsChain s1 (l1 ++ l2) ∧
      s1.torn = s.torn ++ [x] := by
  rcases first_match_split cond l with hnone | ⟨l1, a, x, l2, rfl, h1, hx⟩
  · rw [remove_search_none (abs_self s) hc.1 hc.2 cond hnone] at hr
    cases hr
    exact absurd rfl hne
  · obtain ⟨s2, h, hc2, _, ht2, _⟩ := remove_search_chain hc cond h1 hx
    rw [h] at hr
    cases hr
    exact ⟨l1, a, x, l2, rfl, hc2, ht2⟩

theorem remove_success {s s1 : State α} (hI : Inv s) {op : Op α} (hop : op.isRemove = true)
    {r : Int} (hr : op.run s = .ok (r, s1)) (hne : r ≠ -1) {xs : List α}
    (hc : chain s = some xs) :
    ∃ ys x zs, xs = ys ++ x :: zs ∧ s1.torn = s.torn ++ [x] ∧
      chain s1 = some (ys ++ zs) := by
  obtain ⟨l, hl, hlen, hleak⟩ := hI
  have hxs : xs = l.map Prod.snd := by
    have := chain_eq_some_iff.2 ⟨l, hl, rfl⟩
    rw [hc] at this
    exact Option.some.inj this
  have key : ∃ l1 a x l2, l = l1 ++ (a, x) :: l2 ∧ IsChain s1 (l1 ++ l2) ∧
      s1.torn = s.torn ++ [x] := by
    cases op with
    | insert_first val junk => simp [Op.isRemove] at hop
    | insert_last val junk => simp [Op.isRemove] at hop
    | insert_n val n junk => simp [Op.isRemove] at hop
    | remove_first junk =>
      exact remove_n_success hl hlen hleak
        (show ll_remove_n s 0 junk = .ok (r, s1) from hr) hne
    | remove_n n junk => exact remove_n_success hl hlen hleak hr hne
    | remove_search cond => exact remove_search_success hl hr hne
  obtain ⟨l1, a, x, l2, rfl, hc1, ht1⟩ := key
  refine ⟨l1.map Prod.snd, x, l2.map Prod.snd, ?_, ht1, ?_⟩
  · rw [hxs]
    simp
  · exact chain_eq_some_iff.2 ⟨_, hc1, by simp⟩

/-! ## The claims on wrappers, teardown, traversal and locks -/

/-- C11: front-insert reversal.  For every sequence of values `v0 .. v(k-1)`, the calls
`ll_insert_first(list, v0)`, ..., `ll_insert_first(list, v(k-1))` on a new list all return,
and the calls `ll_get_n(list, 0)`, ..., `ll_get_n(list, k-1)` that follow return
`v(k-1), ..., v0`, whatever the unset locals of the calls hold. -/
theorem front_inserts_read_back_reversed (vs : List (α × Ptr)) (junk : Nat → Ptr) :
    ∃ s s1, runOps ll_new (vs.map fun p => Op.insert_first p.1 p.2) = .ok s ∧
      get_range junk 0 vs.length s = .ok ((vs.map Prod.fst).reverse.map some, s1) := by
  obtain ⟨s, hs, hc, _⟩ := insert_first_run vs (ll_new : State α) [] rfl rfl
  rw [List.append_nil] at hc
  obtain ⟨s1, h1, _⟩ := get_range_values junk vs.length 0 s hc (by simp)
  refine ⟨s, s1, hs, ?_⟩
  rw [h1, List.drop_zero, List.take_of_length_le (by simp)]

/-- C12: on a list whose chain holds the values `xs` and whose `len` is the length of `xs`
(the empty list included), `ll_insert_last(list, v)` returns `length + 1` and leaves the
chain equal to `xs` followed by `v`, with `len` equal to `length + 1`. -/
theorem ll_insert_last_appends (s : State α) (xs : List α) (v : α) (junk : Ptr)
    (hc : chain s = some xs) (hlen : s.list.len = xs.length) :
    ∃ s1, ll_insert_last s v junk = .ok ((xs.length : Int) + 1, s1) ∧
      chain s1 = some (xs ++ [v]) ∧ s1.list.len = (xs.length : Int) + 1 := by
  obtain ⟨s1, h1, hc1, hlen1⟩ := insert_n_values hc hlen v xs.length (le_refl _) junk
  refine ⟨s1, ?_, ?_, hlen1⟩
  · unfold ll_insert_last
    rw [hlen]
    exact h1
  · rw [hc1]
    simp

/-- Appending `40` to the list `[10, 20, 30]`. -/
theorem ll_insert_last_appends_witness :
    ∃ s1, ll_insert_last demo3 40 none = .ok ((([10, 20, 30] : List Nat).length : Int) + 1, s1) ∧
      chain s1 = some ([10, 20, 30] ++ [40]) ∧
      s1.list.len = (([10, 20, 30] : List Nat).length : Int) + 1 :=
  ll_insert_last_appends demo3 [10, 20, 30] 40 none (by decide) (by decide)

/-- C13: destructor once on removal.  On a list that satisfies the list invariant and holds
the pairwise distinct values `xs`, every `ll_remove_n`, `ll_remove_first` or
`ll_remove_search` call that succeeds (returns a value other than `-1`) removes one value `x`
of `xs` from the chain and calls `val_teardown` exactly once, on `x`; an `ll_delete` that
follows returns, calls `val_teardown` on the values left in the chain and not on `x`. -/
theorem val_teardown_once_on_removal (s s1 : State α) (xs : List α) (op : Op α) (r : Int)
    (hI : Inv s) (hc : chain s = some xs) (hnd : xs.Nodup) (hop : op.isRemove = true)
    (hr : op.run s = .ok (r, s1)) (hne : r ≠ -1) :
    ∃ ys x zs, xs = ys ++ x :: zs ∧ s1.torn = s.torn ++ [x] ∧ chain s1 = some (ys ++ zs) ∧
      ∃ s2, ll_delete s1 = .ok s2 ∧ s2.torn = s1.torn ++ (ys ++ zs) ∧ x ∉ ys ++ zs := by
  obtain ⟨ys, x, zs, hxs, ht, hc1⟩ := remove_success hI hop hr hne hc
  obtain ⟨s2, h2, ht2, _, _⟩ := ll_delete_values hc1
  refine ⟨ys, x, zs, hxs, ht, hc1, s2, h2, ht2, ?_⟩
  rw [hxs, List.nodup_middle, List.nodup_cons] at hnd
  exact hnd.1

/-- Removing index `1` of the list `[10, 20, 30]`, then deleting the list. -/
theorem val_teardown_once_on_removal_witness :
    ∃ ys x zs, ([10, 20, 30] : List Nat) = ys ++ x :: zs ∧
      (stateOf (runOps demo3 [.remove_n 1 none])).torn = demo3.torn ++ [x] ∧
      chain (stateOf (runOps demo3 [.remove_n 1 none])) = some (ys ++ zs) ∧
      ∃ s2, ll_delete (stateOf (runOps demo3 [.remove_n 1 none])) = .ok s2 ∧
        s2.torn = (stateOf (runOps demo3 [.remove_n 1 none])).torn ++ (ys ++ zs) ∧
        x ∉ ys ++ zs :=
  val_teardown_once_on_removal demo3 (stateOf (runOps demo3 [.remove_n 1 none]))
    [10, 20, 30] (.remove_n 1 none) 2
    (runOps_inv [.insert_last 10 none, .insert_last 20 none, .insert_last 30 none] Inv_new rfl)
    (by decide) (by decide) rfl rfl (by decide)

/-- C14: on a list whose chain holds the values `xs`, `ll_delete` returns and the
`val_teardown` calls it makes are exactly the values of `xs`, once each, head to tail. -/
theorem ll_delete_tears_down_chain (s : State α) (xs : List α) (hc : chain s = some xs) :
    ∃ s2, ll_delete s = .ok s2 ∧ s2.torn = s.torn ++ xs := by
  obtain ⟨s2, h2, ht2, _, _⟩ := ll_delete_values hc
  exact ⟨s2, h2, ht2⟩

/-- The `ll_delete` at the end of the test program, on the list `[1, 6, 5]`. -/
theorem ll_delete_tears_down_chain_witness :
    ∃ s2, ll_delete mainState = .ok s2 ∧ s2.torn = mainState.torn ++ [1, 6, 5] :=
  ll_delete_tears_down_chain mainState [1, 6, 5] (by decide)

/-- C15: on a list whose chain holds the values `xs`, `ll_map(list, f)` returns, the calls of
`f` it makes are exactly the values of `xs`, once each, head to tail, and the chain and `len`
are the same after the call. -/
theorem ll_map_visits_chain (s : State α) (xs : List α) (hc : chain s = some xs) :
    ∃ s1, ll_map s = .ok (xs, s1) ∧ chain s1 = some xs ∧ s1.list.len = s.list.len := by
  obtain ⟨s1, h1, a1⟩ := ll_map_values hc
  exact ⟨s1, h1, (chain_of_abs a1).trans hc, abs_len a1⟩

/-- Mapping over the list `[10, 20, 30]`. -/
theorem ll_map_visits_chain_witness :
    ∃ s1, ll_map demo3 = .ok ([10, 20, 30], s1) ∧ chain s1 = some [10, 20, 30] ∧
      s1.list.len = demo3.list.len :=
  ll_map_visits_chain demo3 [10, 20, 30] (by decide)

/-- C16, at the failing input: on the empty list, `ll_select_n(list, &node, 1, lt)` returns 0
with `node == NULL`, for both lock modes and whatever `node` held before: no node exists at
index 0, the loop with its `last == NULL` test runs zero times. -/
theorem ll_select_n_null_success (junk : Ptr) (lt : locktype) :
    chain (ll_new : State Nat) = some [] ∧
      ll_select_n (ll_new : State Nat) junk 1 lt = .ok (0, none, ll_new) :=
  ⟨by decide, rfl⟩

/-- C17, at the failing input: on the list `[10, 20, 30]`, whose node locks all have hold
count zero, `ll_select_n(list, &node, 3, lt)` issues `LOCK` on the node at index 1 a second
time while it still holds that lock: the second iteration starts with `LOCK(lt, last->m)` on
the node the first iteration has locked as `*node`.  The hold count of that lock is 1 when
the call returns. -/
theorem ll_select_n_locks_held_lock (junk : Ptr) (lt : locktype) :
    holds demo3 = [0, 0, 0] ∧
      selectObs demo3 junk 3 lt =
        some (0, some 2,
          [.acquire lt (.node (some 0)), .acquire lt (.node (some 1)),
           .release (.node (some 0)), .acquire lt (.node (some 1)),
           .acquire lt (.node (some 2)), .release (.node (some 1))],
          [0, 1, 1]) ∧
      locksHeldLock
        [.acquire lt (.node (some 0)), .acquire lt (.node (some 1)),
         .release (.node (some 0)), .acquire lt (.node (some 1)),
         .acquire lt (.node (some 2)), .release (.node (some 1))] = true := by
  cases lt <;> exact ⟨by decide, rfl, by decide⟩

/-- C18, at the failing inputs: on the list `[10, 20, 30]`, whose node locks all have hold
count zero, `ll_select_n(list, &node, 1, lt)` returns 0 with `node` the head, issues no lock
operation and leaves the hold count of the head at zero; `ll_select_n(list, &node, 4, lt)`
returns `-1` and leaves the locks of the nodes at index 1 and 2 with hold count 1. -/
theorem ll_select_n_head_not_locked (junk : Ptr) (lt : locktype) :
    holds demo3 = [0, 0, 0] ∧
      selectObs demo3 junk 1 lt = some (0, some 0, [], [0, 0, 0]) ∧
      ∃ tr, selectObs demo3 junk 4 lt = some (-1, none, tr, [0, 1, 1]) := by
  cases lt <;> exact ⟨by decide, rfl, _, rfl⟩

/-- C19, at the failing input: on the empty list, which satisfies `len ==` number of
reachable nodes, `ll_insert_n(list, v, 1)` has a successful `ll_select_n`, `n != 0` and
`len <= 0` when the branches are tested: the branch marked "won't get here" is taken, and
its `UNLOCK(nth_node->m)` is an access through NULL. -/
theorem ll_insert_n_last_branch_reached (junk : Ptr) :
    chain (ll_new : State Nat) = some [] ∧ (ll_new : State Nat).list.len = 0 ∧
      ll_select_n (ll_new : State Nat) junk 1 .l_write = .ok (0, none, ll_new) ∧
      (1 : Int) ≠ 0 ∧ ¬ ((ll_new_node (ll_new : State Nat) 7).2.list.len > 0) ∧
      ll_insert_n (ll_new : State Nat) 7 1 junk = .error .fault :=
  ⟨by decide, by decide, rfl, by decide, by decide, rfl⟩

/-- C20, at the failing inputs: on the list `[10, 20, 30]`, whose locks all have hold count
zero, `ll_insert_n(list, v, 0)`, `ll_get_n(list, 0)` and `ll_remove_n(list, 1)` each issue an
`UNLOCK` on a node lock whose hold count is zero, and `ll_insert_n(list, v, 3)` returns with
hold count 1 on the lock of the node at index 1. -/
theorem lock_balance_broken (junk : Ptr) :
    holds demo3 = [0, 0, 0] ∧ demo3.list.m = 0 ∧
      lockObs demo3 (ll_insert_n demo3 9 0 junk) =
        some ([.release (.node (some 0)), .acquire .l_write .list, .release .list,
          .acquire .l_write .list, .release .list], [0, 0, 0, 0], 0) ∧
      unlocksFreeLock [.release (.node (some 0)), .acquire .l_write .list, .release .list,
          .acquire .l_write .list, .release .list] = true ∧
      lockObs demo3 (ll_get_n demo3 0 junk) = some ([.release (.node (some 0))], [0, 0, 0], 0) ∧
      unlocksFreeLock [.release (.node (some 0))] = true ∧
      lockObs demo3 (ll_remove_n demo3 1 junk) =
        some ([.acquire .l_write .list, .release (.node (some 0)), .release .list],
          [0, 0, 0], 0) ∧
      unlocksFreeLock [.acquire .l_write .list, .release (.node (some 0)), .release .list] =
        true ∧
      ∃ tr, lockObs demo3 (ll_insert_n demo3 9 3 junk) = some (tr, [0, 1, 0, 0], 0) :=
  ⟨by decide, by decide, rfl, by decide, rfl, by decide, rfl, by decide, _, rfl⟩

/-! ## The length invariant across a call that does not return -/

/-- C1, at the failing input: the calls `ll_insert_last(list, 10)`, `ll_remove_n(list, 1)` on
a new list.  The first call returns with the chain `[10]` and `len == 1`.  The second call
does not return: `ll_select_n` returns 0 with `nth_node` the only node, `tmp` is its NULL
successor, and after `(list->len)--` the list has one reachable node and `len == 0` when
`tmp->val` is read through NULL.  The test program itself does not return from its
`ll_remove_first` call when the unset `nth_node` holds NULL. -/
theorem len_invariant_lost_at_fault (junk : Ptr) :
    runOps (ll_new : State Nat) [.insert_last 10 none] = .ok demo1 ∧
      chain demo1 = some [10] ∧ demo1.list.len = 1 ∧
      runOps (ll_new : State Nat) [.insert_last 10 none, .remove_n 1 junk] = .error .fault ∧
      ll_select_n demo1 junk 1 .l_write = .ok (0, some 0, demo1) ∧
      get_nxt demo1 (some 0) = .ok none ∧
      set_nxt demo1 (some 0) none = .ok demo1Relinked ∧
      LOCK .l_write .list demo1Relinked = .ok demo1Locked ∧
      ll_remove_n demo1 1 junk = remove_finish demo1Locked (some 0) none ∧
      UNLOCK (.node (some 0)) demo1Locked = .ok demo1Unlocked ∧
      UNLOCK .list (set_len demo1Unlocked (demo1Unlocked.list.len - 1)) =
        .ok demo1AtTeardown ∧
      chain demo1AtTeardown = some [10] ∧ demo1AtTeardown.list.len = 0 ∧
      get_val demo1AtTeardown none = .error .fault ∧
      runOps (ll_new : State Nat) (mainOps.take 7 ++ [.remove_first none]) = .error .fault :=
  ⟨rfl, by decide, by decide, rfl, rfl, rfl, rfl, rfl, rfl, rfl, rfl, by decide, by decide,
    rfl, rfl⟩

end LL
